import Mathlib

/-!
# Go-Back-N sender of `rft-client.cpp`

A shallow embedding of the sender loop of `main` in `src/rft-client.cpp`
(lines 96-202) and the properties of its sliding window.

The loop talks to three collaborators that are not part of the source file:
the input file stream, the unreliable transport (`udt_send`, `udt_receive`)
and the timer (`setDuration`, `start`, `stop`, `timeout`).  Every call the
loop makes to one of them is appended to a trace kept in the state; what the
collaborators answer (`udt_receive`, `timeout`) is an input of the iteration.

`int` variables (`base`, `nextSeqNum`) are modelled by `Int` without wrap
around: signed overflow is undefined in C++ and needs a source of more than
`2^31 - 11` chunks.  The record `datagramS` is declared in a header that is
not part of the source; its integer fields are modelled by unbounded integers.
-/

namespace RftClient

/-- The constant `#define WINDOW_SIZE 10` (line 16). -/
def WINDOW_SIZE : Int := 10

/-- The constant `#define TIMEOUT_MS 500` (line 17). -/
def TIMEOUT_MS : Nat := 500

/-- The record `datagramS` as the loop uses it: the fields `seqNum`, `ackNum`,
`checksum`, `payloadLength` and the buffer `data` (a list of bytes). -/
structure datagramS where
  seqNum : Int
  ackNum : Int
  checksum : Nat
  payloadLength : Nat
  data : List Nat
deriving DecidableEq

/-- What the loop takes from headers that are not part of the source: the
constant `MAX_PAYLOAD_LENGTH` and the two functions `computeChecksum` and
`validateChecksum`, all three left as parameters. -/
structure Env where
  MAX_PAYLOAD_LENGTH : Nat
  computeChecksum : datagramS → Nat
  validateChecksum : datagramS → Bool

/-- One call made by the loop to a collaborator: `inputFile.read` (logged with
the value of `gcount()`), `network->udt_send`, `timer.setDuration`,
`timer.start` and `timer.stop`. -/
inductive Event where
  | read (bytesRead : Nat)
  | udt_send (d : datagramS)
  | setDuration (ms : Nat)
  | start
  | stop
deriving DecidableEq

/-- The variables of the sender loop (lines 95-105).  `inputFile` is the part
of the file that has not been read yet, `window` maps a slot index to the
datagram stored there, `trace` lists the calls made so far, oldest first.
`timerRunning` is the state of the timer: Modelled from the spec: the timer is
one of idle and running (section 9), `start` makes it running, `stop` idle. -/
structure SenderState where
  inputFile : List Nat
  window : Int → datagramS
  allSent : Bool
  allAcked : Bool
  base : Int
  nextSeqNum : Int
  timerRunning : Bool
  trace : List Event

/-- What one iteration of the outer loop gets from outside: the result of
`udt_receive` (`none` when `recvBytes <= 0`) and the result of
`timer.timeout()`. -/
structure Input where
  recv : Option datagramS
  expired : Bool

/-- The state at line 106, before the first iteration: `window{}` is zero
initialised, `allSent` and `allAcked` are false, `base` and `nextSeqNum`
are 1. -/
def initState (env : Env) (file : List Nat) : SenderState :=
  { inputFile := file
    window := fun _ =>
      { seqNum := 0, ackNum := 0, checksum := 0, payloadLength := 0,
        data := List.replicate env.MAX_PAYLOAD_LENGTH 0 }
    allSent := false
    allAcked := false
    base := 1
    nextSeqNum := 1
    timerRunning := false
    trace := [] }

/-- The index `i % WINDOW_SIZE` of lines 112 and 189 (C++ remainder, which
truncates towards zero). -/
def slot (i : Int) : Int := Int.tmod i WINDOW_SIZE

/-- The guard of the inner loop (line 110). -/
def fillCond (s : SenderState) : Bool :=
  decide (s.nextSeqNum < s.base + WINDOW_SIZE) && !s.allSent

/-- The body of the inner loop (lines 112-139).  The read stores the bytes it
got at the start of the buffer of slot `nextSeqNum % WINDOW_SIZE` and leaves
the rest of the buffer as it was.  The `break` of line 125 leaves the loop
in a state where `allSent` is true, in which the guard of line 110 is false
as well. -/
def fillBody (env : Env) (s : SenderState) : SenderState :=
  let chunk := s.inputFile.take env.MAX_PAYLOAD_LENGTH
  let rest := s.inputFile.drop env.MAX_PAYLOAD_LENGTH
  let bytesRead := chunk.length
  let old := s.window (slot s.nextSeqNum)
  let d0 : datagramS := { old with data := chunk ++ old.data.drop bytesRead }
  if bytesRead = 0 then
    let d1 : datagramS := { d0 with seqNum := s.nextSeqNum, payloadLength := 0 }
    let d2 : datagramS := { d1 with checksum := env.computeChecksum d1 }
    { s with
      inputFile := rest
      window := Function.update s.window (slot s.nextSeqNum) d2
      allSent := true
      trace := s.trace ++ [Event.read bytesRead, Event.udt_send d2] }
  else
    let d1 : datagramS :=
      { d0 with seqNum := s.nextSeqNum, payloadLength := bytesRead % 256 }
    let d2 : datagramS := { d1 with checksum := env.computeChecksum d1 }
    { s with
      inputFile := rest
      window := Function.update s.window (slot s.nextSeqNum) d2
      timerRunning := if s.base = s.nextSeqNum then true else s.timerRunning
      trace := s.trace ++ [Event.read bytesRead, Event.udt_send d2] ++
        (if s.base = s.nextSeqNum then [Event.setDuration TIMEOUT_MS, Event.start] else [])
      nextSeqNum := s.nextSeqNum + 1 }

/-- The inner loop (lines 110-140), with a bound on the number of rounds. -/
def fillLoop (env : Env) : Nat → SenderState → SenderState
  | 0, s => s
  | n + 1, s => if fillCond s then fillLoop env n (fillBody env s) else s

/-- The filling phase: the inner loop run for as many rounds as the window has
free places, which is enough for its guard to fail (`fillCond_fill`). -/
def fill (env : Env) (s : SenderState) : SenderState :=
  fillLoop env (s.base + WINDOW_SIZE - s.nextSeqNum).toNat s

/-- The polling phase (lines 144-179) for a given result of `udt_receive`. -/
def poll (env : Env) (s : SenderState) (recv : Option datagramS) : SenderState :=
  match recv with
  | none => s
  | some ackDatagram =>
    if !env.validateChecksum ackDatagram then s
    else if ackDatagram.ackNum ≥ s.base ∧ ackDatagram.ackNum < s.nextSeqNum then
      if ackDatagram.ackNum + 1 = s.nextSeqNum then
        { s with
          base := ackDatagram.ackNum + 1
          timerRunning := false
          trace := s.trace ++ [Event.stop] }
      else
        { s with
          base := ackDatagram.ackNum + 1
          timerRunning := true
          trace := s.trace ++ [Event.start] }
    else if ackDatagram.ackNum < s.base then s
    else s

/-- The loop `for (int i = base; i < nextSeqNum; ++i)` of lines 187-192, from
the index `i` on, with a bound on the number of rounds. -/
def retransmitLoop : Nat → Int → SenderState → SenderState
  | 0, _, s => s
  | n + 1, i, s =>
    if i < s.nextSeqNum then
      retransmitLoop n (i + 1)
        { s with trace := s.trace ++ [Event.udt_send (s.window (slot i))] }
    else s

/-- The timeout phase (lines 183-194) for a given result of `timer.timeout()`.
The loop gets `nextSeqNum - base` rounds, the number of indices it visits. -/
def timeoutCheck (s : SenderState) (expired : Bool) : SenderState :=
  if expired then
    let s1 := retransmitLoop (s.nextSeqNum - s.base).toNat s.base s
    { s1 with timerRunning := true, trace := s1.trace ++ [Event.start] }
  else s

/-- The completion check (lines 197-201). -/
def completionCheck (s : SenderState) : SenderState :=
  if s.allSent && decide (s.base = s.nextSeqNum) then { s with allAcked := true } else s

/-- One iteration of the outer loop (lines 107-202). -/
def iteration (env : Env) (s : SenderState) (inp : Input) : SenderState :=
  completionCheck (timeoutCheck (poll env (fill env s) inp.recv) inp.expired)

/-- The guard of the outer loop (line 106). -/
def loopCond (s : SenderState) : Bool := !s.allSent && !s.allAcked

/-- The outer loop (lines 106-202) on a list of inputs, one for each
iteration; it stops when the guard fails or the inputs are used up. -/
def run (env : Env) : SenderState → List Input → SenderState
  | s, [] => s
  | s, inp :: rest => if loopCond s then run env (iteration env s inp) rest else s

/-- The states the loop can be in: the initial one, and what a round of the
inner loop, a polling phase, a timeout phase or a completion check makes of
such a state. -/
inductive Reachable (env : Env) (file : List Nat) : SenderState → Prop
  | init : Reachable env file (initState env file)
  | fillBody (s : SenderState) :
      Reachable env file s → fillCond s = true → Reachable env file (fillBody env s)
  | poll (s : SenderState) (recv : Option datagramS) :
      Reachable env file s → Reachable env file (poll env s recv)
  | timeoutCheck (s : SenderState) (expired : Bool) :
      Reachable env file s → Reachable env file (timeoutCheck s expired)
  | completionCheck (s : SenderState) :
      Reachable env file s → Reachable env file (completionCheck s)

/-- The datagrams passed to `udt_send` in a trace, oldest first. -/
def sentFrames : List Event → List datagramS
  | [] => []
  | Event.udt_send d :: rest => d :: sentFrames rest
  | _ :: rest => sentFrames rest

/-- A checksum used in the examples: the sum of the sequence number, the
acknowledgment number, the payload length and the payload bytes, modulo
`2^16`. -/
def sampleChecksum (d : datagramS) : Nat :=
  (d.seqNum.toNat + d.ackNum.toNat + d.payloadLength +
    (d.data.take d.payloadLength).sum) % 65536

/-- The parameters used in the examples: payloads of at most 255 bytes and
the checksum `sampleChecksum`. -/
def sampleEnv : Env :=
  { MAX_PAYLOAD_LENGTH := 255
    computeChecksum := sampleChecksum
    validateChecksum := fun d => decide (d.checksum = sampleChecksum d) }


/-- The window invariant: `base` is at least 1, `nextSeqNum` lies between
`base` and `base + WINDOW_SIZE`, and the slot of every sequence number in
`[base, nextSeqNum)` holds a datagram with that sequence number whose
payload length is not zero when payload lengths fit in 8 bits. -/
def WindowInv (env : Env) (s : SenderState) : Prop :=
  1 ≤ s.base ∧ s.base ≤ s.nextSeqNum ∧ s.nextSeqNum ≤ s.base + WINDOW_SIZE ∧
  ∀ i : Int, s.base ≤ i → i < s.nextSeqNum →
    (s.window (slot i)).seqNum = i ∧
    (env.MAX_PAYLOAD_LENGTH ≤ 255 → (s.window (slot i)).payloadLength ≠ 0)

/-- The end-of-file invariant: `allAcked` is only true when `allSent` is;
while `allSent` is false no read has returned zero bytes and no frame of
payload length zero has been sent; once `allSent` is true the trace holds
one read that returned zero bytes, the first such read, followed at once by
the send of a frame of payload length zero and sequence number `nextSeqNum`,
and no other frame sent has payload length zero. -/
def EofInv (s : SenderState) : Prop :=
  (s.allAcked = true → s.allSent = true) ∧
  (s.allSent = false →
    Event.read 0 ∉ s.trace ∧ ∀ d ∈ sentFrames s.trace, d.payloadLength ≠ 0) ∧
  (s.allSent = true →
    ∃ pre d post, s.trace = pre ++ [Event.read 0, Event.udt_send d] ++ post ∧
      d.payloadLength = 0 ∧ d.seqNum = s.nextSeqNum ∧ Event.read 0 ∉ pre ∧
      (∀ e ∈ sentFrames pre, e.payloadLength ≠ 0) ∧
      (∀ e ∈ sentFrames post, e.payloadLength ≠ 0))

/-- The number of frames of payload length zero passed to `udt_send` in a
trace. -/
def eofCount (tr : List Event) : Nat :=
  ((sentFrames tr).filter (fun d => d.payloadLength == 0)).length

/-- The frame that a round of the inner loop builds in the slot of
`nextSeqNum` and passes to `udt_send` (lines 112-132): the contents of that
slot after the round. -/
def fillFrame (env : Env) (s : SenderState) : datagramS :=
  (fillBody env s).window (slot s.nextSeqNum)

/-- The states the loop can be in when `timer.timeout()` is true only while
the timer is running: as `Reachable`, but a timeout phase with an expired
timer is only taken from a state whose timer is running. -/
inductive TimedReachable (env : Env) (file : List Nat) : SenderState → Prop
  | init : TimedReachable env file (initState env file)
  | fillBody (s : SenderState) :
      TimedReachable env file s → fillCond s = true →
      TimedReachable env file (fillBody env s)
  | poll (s : SenderState) (recv : Option datagramS) :
      TimedReachable env file s → TimedReachable env file (poll env s recv)
  | timeoutCheck (s : SenderState) (expired : Bool) :
      TimedReachable env file s → (expired = true → s.timerRunning = true) →
      TimedReachable env file (timeoutCheck s expired)
  | completionCheck (s : SenderState) :
      TimedReachable env file s → TimedReachable env file (completionCheck s)

/-- The timer invariant: the timer is running exactly when a datagram of
`[base, nextSeqNum)` is outstanding. -/
def TimerInv (s : SenderState) : Prop :=
  s.timerRunning = true ↔ s.base < s.nextSeqNum

/-- Modelled from the spec: `validateChecksum`, which is declared in a header
that is not part of the source, recomputes the checksum of the frame and
compares it with the checksum field (section 4.1). -/
def specValidateChecksum (computeChecksum : datagramS → Nat) (d : datagramS) : Bool :=
  decide (d.checksum = computeChecksum d)

/-- The checksum function depends only on the sequence number, the
acknowledgment number, the payload length and the payload buffer of a frame
(every function of the payload bytes up to `payloadLength` is of this
kind). -/
def ChecksumPure (computeChecksum : datagramS → Nat) : Prop :=
  ∀ d e : datagramS, d.seqNum = e.seqNum → d.ackNum = e.ackNum →
    d.payloadLength = e.payloadLength → d.data = e.data →
    computeChecksum d = computeChecksum e

/-- The checksum invariant: every frame passed to `udt_send` so far, and every
frame in the slot of a sequence number of `[base, nextSeqNum)`, carries the
checksum of its own fields. -/
def ChecksumInv (env : Env) (s : SenderState) : Prop :=
  (∀ d ∈ sentFrames s.trace, d.checksum = env.computeChecksum d) ∧
  ∀ i : Int, s.base ≤ i → i < s.nextSeqNum →
    (s.window (slot i)).checksum = env.computeChecksum (s.window (slot i))

/-- The number of calls of `timer.start` in a trace. -/
def timerStarts (tr : List Event) : Nat := tr.count Event.start

/-- The results of the calls of `inputFile.read` in a trace (the values of
`gcount()`), oldest first. -/
def readEvents : List Event → List Nat
  | [] => []
  | Event.read n :: rest => n :: readEvents rest
  | _ :: rest => readEvents rest

/-- The bound on the frames sent: every frame passed to `udt_send` so far has
a sequence number below `base + WINDOW_SIZE`. -/
def SentBound (s : SenderState) : Prop :=
  ∀ d ∈ sentFrames s.trace, d.seqNum < s.base + WINDOW_SIZE

/-- The frames sent for the first time in a trace, oldest first: those passed
to `udt_send` right after a read, as a round of the filling loop does
(lines 113-132); the frames that the timeout phase resends are not preceded
by a read. -/
def firstSends : List Event → List datagramS
  | [] => []
  | Event.read _ :: Event.udt_send d :: rest => d :: firstSends rest
  | _ :: rest => firstSends rest

/-- A trace does not end with a read. -/
def NoPendingRead (tr : List Event) : Prop :=
  ∀ n, tr.getLast? ≠ some (Event.read n)

/-- The chunking invariant: the trace does not end with a read; the frames
sent for the first time are data frames numbered 1, 2, ... up to
`nextSeqNum - 1`, followed by the EOF marker (numbered `nextSeqNum`) once
`allSent` is true; and, when payload lengths fit in 8 bits and chunks are not
empty, each data frame carries between 1 and `MAX_PAYLOAD_LENGTH` bytes and
the payloads of the data frames followed by the unread part of the file make
up the file, nothing being left unread once `allSent` is true. -/
def ChunkInv (env : Env) (file : List Nat) (s : SenderState) : Prop :=
  NoPendingRead s.trace ∧
  ∃ frames eofs : List datagramS,
    firstSends s.trace = frames ++ eofs ∧
    (frames.length : Int) + 1 = s.nextSeqNum ∧
    frames.map (fun d => d.seqNum) =
      List.map (fun k : Nat => (k : Int) + 1) (List.range frames.length) ∧
    (s.allSent = false → eofs = []) ∧
    (s.allSent = true →
      ∃ e, eofs = [e] ∧ e.payloadLength = 0 ∧ e.seqNum = s.nextSeqNum) ∧
    (0 < env.MAX_PAYLOAD_LENGTH → env.MAX_PAYLOAD_LENGTH ≤ 255 →
      (∀ d ∈ frames, 1 ≤ d.payloadLength ∧ d.payloadLength ≤ env.MAX_PAYLOAD_LENGTH) ∧
      (frames.map (fun d => d.data.take d.payloadLength)).flatten ++ s.inputFile = file ∧
      (s.allSent = true → s.inputFile = []))

/-- The slot invariant: for every sequence number `i` of `[base, nextSeqNum)`
the slot of `i` holds the `i`-th frame sent for the first time. -/
def SlotInv (s : SenderState) : Prop :=
  ∀ i : Int, s.base ≤ i → i < s.nextSeqNum →
    (firstSends s.trace)[(i - 1).toNat]? = some (s.window (slot i))

/-! ## Auxiliary facts -/

theorem slot_eq_emod (i : Int) (h : 0 ≤ i) : slot i = i % 10 := by
  unfold slot WINDOW_SIZE
  exact Int.tmod_eq_emod h (by decide)

theorem slot_ne (i j : Int) (hi : 1 ≤ i) (hij : i < j) (hj : j < i + 10) :
    slot i ≠ slot j := by
  rw [slot_eq_emod i (by omega), slot_eq_emod j (by omega)]
  omega

theorem fillCond_iff (s : SenderState) :
    fillCond s = true ↔ s.nextSeqNum < s.base + 10 ∧ s.allSent = false := by
  simp [fillCond, WINDOW_SIZE]

theorem fillBody_base (env : Env) (s : SenderState) : (fillBody env s).base = s.base := by
  unfold fillBody; simp only []; split <;> rfl

theorem fillBody_nextSeqNum (env : Env) (s : SenderState) :
    (fillBody env s).nextSeqNum = s.nextSeqNum ∨
    (fillBody env s).nextSeqNum = s.nextSeqNum + 1 := by
  unfold fillBody; simp only []; split
  · left; rfl
  · right; rfl

theorem chunk_length_le (env : Env) (file : List Nat) :
    (file.take env.MAX_PAYLOAD_LENGTH).length ≤ env.MAX_PAYLOAD_LENGTH := by
  simp [List.length_take]

theorem windowInv_init (env : Env) (file : List Nat) : WindowInv env (initState env file) := by
  refine ⟨by simp [initState], by simp [initState], by simp [initState, WINDOW_SIZE], ?_⟩
  intro i h1 h2
  simp [initState] at h1 h2
  omega

theorem windowInv_fillBody (env : Env) (s : SenderState) (h : WindowInv env s)
    (hc : fillCond s = true) : WindowInv env (fillBody env s) := by
  obtain ⟨h1, h2, h3, h4⟩ := h
  obtain ⟨hc1, -⟩ := (fillCond_iff s).1 hc
  have hlen := chunk_length_le env s.inputFile
  unfold fillBody; simp only []
  split
  · refine ⟨h1, h2, h3, ?_⟩
    intro i hi1 hi2
    simp only [] at hi1 hi2 ⊢
    have hne : slot i ≠ slot s.nextSeqNum := slot_ne i s.nextSeqNum (by omega) hi2 (by omega)
    rw [Function.update_noteq hne]
    exact h4 i hi1 hi2
  · rename_i hz
    refine ⟨h1, by simp only []; omega, by simp only [WINDOW_SIZE] at h3 ⊢; omega, ?_⟩
    intro i hi1 hi2
    simp only [] at hi1 hi2 ⊢
    by_cases hi : i = s.nextSeqNum
    · subst hi
      rw [Function.update_same]
      refine ⟨rfl, ?_⟩
      intro hmax
      simp only []
      omega
    · have hne : slot i ≠ slot s.nextSeqNum :=
        slot_ne i s.nextSeqNum (by omega) (by omega) (by omega)
      rw [Function.update_noteq hne]
      exact h4 i hi1 (by omega)


theorem windowInv_poll (env : Env) (s : SenderState) (recv : Option datagramS)
    (h : WindowInv env s) : WindowInv env (poll env s recv) := by
  obtain ⟨h1, h2, h3, h4⟩ := h
  unfold poll
  split
  · exact ⟨h1, h2, h3, h4⟩
  · rename_i ack
    split
    · exact ⟨h1, h2, h3, h4⟩
    · split
      · rename_i hr
        obtain ⟨hr1, hr2⟩ := hr
        split
        · refine ⟨by simp only []; omega, by simp only []; omega,
            by simp only [WINDOW_SIZE] at h3 ⊢; omega, ?_⟩
          intro i hi1 hi2
          simp only [] at hi1 hi2 ⊢
          exact h4 i (by omega) hi2
        · refine ⟨by simp only []; omega, by simp only []; omega,
            by simp only [WINDOW_SIZE] at h3 ⊢; omega, ?_⟩
          intro i hi1 hi2
          simp only [] at hi1 hi2 ⊢
          exact h4 i (by omega) hi2
      · split <;> exact ⟨h1, h2, h3, h4⟩

/-- What the retransmission loop does: it appends to the trace one `udt_send`
for each index from `i` up to `nextSeqNum` (as far as its rounds reach) and
changes nothing else. -/
theorem retransmitLoop_eq (n : Nat) (i : Int) (s : SenderState) :
    retransmitLoop n i s =
      { s with
        trace := s.trace ++
          List.map (fun k : Nat => Event.udt_send (s.window (slot (i + (k : Int)))))
            (List.range (min n (s.nextSeqNum - i).toNat)) } := by
  induction n generalizing i s with
  | zero => simp [retransmitLoop]
  | succ n ih =>
    unfold retransmitLoop
    split
    · rename_i hlt
      rw [ih]
      have hm : min (n + 1) (s.nextSeqNum - i).toNat =
          min n (s.nextSeqNum - (i + 1)).toNat + 1 := by omega
      rw [hm, List.range_succ_eq_map]
      simp only [List.map_cons, List.map_map, List.append_assoc, List.singleton_append,
        Nat.cast_zero, add_zero]
      congr 3
      apply List.map_congr_left
      intro k _
      simp only [Function.comp, Nat.cast_succ]
      congr 3
      omega
    · rename_i hge
      have hm : min (n + 1) (s.nextSeqNum - i).toNat = 0 := by omega
      rw [hm]
      simp

theorem timeoutCheck_true_eq (s : SenderState) :
    timeoutCheck s true =
      { s with
        timerRunning := true
        trace := s.trace ++
          List.map (fun k : Nat => Event.udt_send (s.window (slot (s.base + (k : Int)))))
            (List.range (s.nextSeqNum - s.base).toNat) ++
          [Event.start] } := by
  simp [timeoutCheck, retransmitLoop_eq]

theorem windowInv_timeoutCheck (env : Env) (s : SenderState) (expired : Bool)
    (h : WindowInv env s) : WindowInv env (timeoutCheck s expired) := by
  cases expired
  · exact h
  · rw [timeoutCheck_true_eq]; exact h

theorem windowInv_completionCheck (env : Env) (s : SenderState)
    (h : WindowInv env s) : WindowInv env (completionCheck s) := by
  unfold completionCheck
  split
  · exact h
  · exact h

theorem windowInv_of_reachable (env : Env) (file : List Nat) (s : SenderState)
    (h : Reachable env file s) : WindowInv env s := by
  induction h with
  | init => exact windowInv_init env file
  | fillBody s _ hc ih => exact windowInv_fillBody env s ih hc
  | poll s recv _ ih => exact windowInv_poll env s recv ih
  | timeoutCheck s expired _ ih => exact windowInv_timeoutCheck env s expired ih
  | completionCheck s _ ih => exact windowInv_completionCheck env s ih

/-! ## Reachability of the states of the loop -/

theorem reachable_fillLoop (env : Env) (file : List Nat) (n : Nat) (s : SenderState)
    (h : Reachable env file s) : Reachable env file (fillLoop env n s) := by
  induction n generalizing s with
  | zero => exact h
  | succ n ih =>
    unfold fillLoop
    split
    · rename_i hc
      exact ih _ (Reachable.fillBody s h hc)
    · exact h

theorem reachable_fill (env : Env) (file : List Nat) (s : SenderState)
    (h : Reachable env file s) : Reachable env file (fill env s) :=
  reachable_fillLoop env file _ s h

theorem reachable_iteration (env : Env) (file : List Nat) (s : SenderState) (inp : Input)
    (h : Reachable env file s) : Reachable env file (iteration env s inp) :=
  Reachable.completionCheck _
    (Reachable.timeoutCheck _ inp.expired
      (Reachable.poll _ inp.recv (reachable_fill env file s h)))

theorem reachable_run_from (env : Env) (file : List Nat) (inputs : List Input)
    (s : SenderState) (h : Reachable env file s) : Reachable env file (run env s inputs) := by
  induction inputs generalizing s with
  | nil => exact h
  | cons inp rest ih =>
    unfold run
    split
    · exact ih _ (reachable_iteration env file s inp h)
    · exact h

theorem reachable_run (env : Env) (file : List Nat) (inputs : List Input) :
    Reachable env file (run env (initState env file) inputs) :=
  reachable_run_from env file inputs _ Reachable.init


/-! ## The inner loop stops -/

theorem fillCond_fillLoop (env : Env) (n : Nat) (s : SenderState)
    (h : (s.base + WINDOW_SIZE - s.nextSeqNum).toNat ≤ n ∨ s.allSent = true) :
    fillCond (fillLoop env n s) = false := by
  induction n generalizing s with
  | zero =>
    simp only [fillLoop]
    rcases h with h | h
    · simp only [fillCond, WINDOW_SIZE] at h ⊢
      have : ¬ (s.nextSeqNum < s.base + 10) := by omega
      simp [this]
    · simp [fillCond, h]
  | succ n ih =>
    unfold fillLoop
    split
    · rename_i hc
      apply ih
      obtain ⟨hc1, hc2⟩ := (fillCond_iff s).1 hc
      rcases h with h | h
      · unfold fillBody; simp only []
        split
        · right; rfl
        · left
          simp only [WINDOW_SIZE] at h ⊢
          omega
      · rw [h] at hc2; cases hc2
    · rename_i hc
      simpa using hc

/-- The filling phase ends in a state where the guard of the inner loop is
false: the bound on the rounds of `fill` is never what stops the loop. -/
theorem fillCond_fill (env : Env) (s : SenderState) : fillCond (fill env s) = false :=
  fillCond_fillLoop env _ s (Or.inl (le_refl _))

/-! ## Monotonicity of the cursors -/

theorem fillBody_mono (env : Env) (s : SenderState) :
    s.base ≤ (fillBody env s).base ∧ s.nextSeqNum ≤ (fillBody env s).nextSeqNum := by
  rw [fillBody_base]
  rcases fillBody_nextSeqNum env s with h | h <;> rw [h] <;> omega

theorem fillLoop_mono (env : Env) (n : Nat) (s : SenderState) :
    s.base ≤ (fillLoop env n s).base ∧ s.nextSeqNum ≤ (fillLoop env n s).nextSeqNum := by
  induction n generalizing s with
  | zero => exact ⟨le_refl _, le_refl _⟩
  | succ n ih =>
    unfold fillLoop
    split
    · have h1 := fillBody_mono env s
      have h2 := ih (fillBody env s)
      omega
    · exact ⟨le_refl _, le_refl _⟩

theorem poll_mono (env : Env) (s : SenderState) (recv : Option datagramS) :
    s.base ≤ (poll env s recv).base ∧ s.nextSeqNum ≤ (poll env s recv).nextSeqNum := by
  unfold poll
  split
  · exact ⟨le_refl _, le_refl _⟩
  · split
    · exact ⟨le_refl _, le_refl _⟩
    · split
      · rename_i hr
        split <;> (simp only []; omega)
      · split <;> exact ⟨le_refl _, le_refl _⟩

theorem timeoutCheck_mono (s : SenderState) (expired : Bool) :
    s.base ≤ (timeoutCheck s expired).base ∧
    s.nextSeqNum ≤ (timeoutCheck s expired).nextSeqNum := by
  cases expired
  · exact ⟨le_refl _, le_refl _⟩
  · rw [timeoutCheck_true_eq]; exact ⟨le_refl _, le_refl _⟩

theorem completionCheck_mono (s : SenderState) :
    s.base ≤ (completionCheck s).base ∧ s.nextSeqNum ≤ (completionCheck s).nextSeqNum := by
  unfold completionCheck
  split <;> exact ⟨le_refl _, le_refl _⟩

theorem iteration_mono (env : Env) (s : SenderState) (inp : Input) :
    s.base ≤ (iteration env s inp).base ∧ s.nextSeqNum ≤ (iteration env s inp).nextSeqNum := by
  have h1 := fillLoop_mono env (s.base + WINDOW_SIZE - s.nextSeqNum).toNat s
  have h2 := poll_mono env (fill env s) inp.recv
  have h3 := timeoutCheck_mono (poll env (fill env s) inp.recv) inp.expired
  have h4 := completionCheck_mono (timeoutCheck (poll env (fill env s) inp.recv) inp.expired)
  unfold iteration
  unfold fill at h2 h3 h4 ⊢
  omega

/-- One more input makes the loop do one more iteration, when its guard still
holds, and nothing otherwise. -/
theorem run_append_singleton (env : Env) (inputs : List Input) (inp : Input)
    (s : SenderState) :
    run env s (inputs ++ [inp]) =
      if loopCond (run env s inputs) then iteration env (run env s inputs) inp
      else run env s inputs := by
  induction inputs generalizing s with
  | nil =>
    simp only [List.nil_append, run]
  | cons i rest ih =>
    simp only [List.cons_append, run]
    split
    · exact ih _
    · rename_i hc
      simp [hc]


theorem sentFrames_append (a b : List Event) :
    sentFrames (a ++ b) = sentFrames a ++ sentFrames b := by
  induction a with
  | nil => rfl
  | cons e rest ih =>
    cases e <;> simp [sentFrames, ih]

theorem sentFrames_map_udt_send {α : Type} (f : α → datagramS) (l : List α) :
    sentFrames (l.map (fun k => Event.udt_send (f k))) = l.map f := by
  induction l with
  | nil => rfl
  | cons d rest ih => simp [sentFrames, ih]

theorem eofInv_init (env : Env) (file : List Nat) : EofInv (initState env file) := by
  refine ⟨by simp [initState], ?_, by simp [initState]⟩
  intro _
  simp [initState, sentFrames]

theorem eofInv_fillBody (env : Env) (s : SenderState) (hmax : env.MAX_PAYLOAD_LENGTH ≤ 255)
    (h : EofInv s) (hc : fillCond s = true) : EofInv (fillBody env s) := by
  obtain ⟨ha, hf, -⟩ := h
  obtain ⟨-, hc2⟩ := (fillCond_iff s).1 hc
  obtain ⟨hf1, hf2⟩ := hf hc2
  have hlen := chunk_length_le env s.inputFile
  have hacked : s.allAcked = false := by
    cases hq : s.allAcked
    · rfl
    · rw [ha hq] at hc2; cases hc2
  unfold fillBody; simp only []
  split
  · rename_i hz
    refine ⟨fun _ => rfl, ?_, fun _ => ?_⟩
    · intro hfalse
      simp at hfalse
    · simp only [hz]
      exact ⟨s.trace, _, [], (List.append_nil _).symm, rfl, rfl, hf1, hf2,
        by simp [sentFrames]⟩
  · rename_i hz
    refine ⟨?_, fun _ => ?_, ?_⟩
    · simp only [hacked]; intro hq; cases hq
    · constructor
      · simp only [List.mem_append, not_or]
        refine ⟨⟨hf1, ?_⟩, ?_⟩
        · simp only [List.mem_cons, List.mem_singleton, Event.read.injEq, not_or]
          exact ⟨fun hq => hz hq.symm, by simp, by simp⟩
        · split <;> simp
      · intro d hd
        simp only [sentFrames_append, List.mem_append] at hd
        rcases hd with (hd | hd) | hd
        · exact hf2 d hd
        · simp only [sentFrames, List.mem_singleton] at hd
          subst hd
          simp only []
          omega
        · split at hd <;> simp [sentFrames] at hd
    · simp only [hc2]; intro hq; cases hq

theorem eofInv_append_timer (s : SenderState) (tr : List Event) (h : EofInv s)
    (h1 : Event.read 0 ∉ tr) (h2 : ∀ e ∈ sentFrames tr, e.payloadLength ≠ 0)
    (t : SenderState) (ht : t.trace = s.trace ++ tr) (hs : t.allSent = s.allSent)
    (ha : t.allAcked = s.allAcked) (hn : t.nextSeqNum = s.nextSeqNum) : EofInv t := by
  obtain ⟨hacked, hf, ht1⟩ := h
  refine ⟨?_, ?_, ?_⟩
  · rw [ha, hs]; exact hacked
  · rw [hs, ht]
    intro hq
    obtain ⟨hf1, hf2⟩ := hf hq
    refine ⟨by simp [hf1, h1], ?_⟩
    intro d hd
    simp only [sentFrames_append, List.mem_append] at hd
    rcases hd with hd | hd
    · exact hf2 d hd
    · exact h2 d hd
  · rw [hs, ht, hn]
    intro hq
    obtain ⟨pre, d, post, e1, e2, e3, e4, e5, e6⟩ := ht1 hq
    refine ⟨pre, d, post ++ tr, ?_, e2, e3, e4, e5, ?_⟩
    · rw [e1]; simp
    · intro e he
      simp only [sentFrames_append, List.mem_append] at he
      rcases he with he | he
      · exact e6 e he
      · exact h2 e he

theorem eofInv_poll (env : Env) (s : SenderState) (recv : Option datagramS)
    (h : EofInv s) : EofInv (poll env s recv) := by
  unfold poll
  split
  · exact h
  · split
    · exact h
    · split
      · split
        · exact eofInv_append_timer s [Event.stop] h (by simp) (by simp [sentFrames])
            _ rfl rfl rfl rfl
        · exact eofInv_append_timer s [Event.start] h (by simp) (by simp [sentFrames])
            _ rfl rfl rfl rfl
      · split <;> exact h

theorem eofInv_timeoutCheck (env : Env) (s : SenderState) (expired : Bool)
    (hmax : env.MAX_PAYLOAD_LENGTH ≤ 255) (hw : WindowInv env s) (h : EofInv s) :
    EofInv (timeoutCheck s expired) := by
  cases expired
  · exact h
  · obtain ⟨_, _, _, h4⟩ := hw
    refine eofInv_append_timer s
      (List.map (fun k : Nat => Event.udt_send (s.window (slot (s.base + (k : Int)))))
        (List.range (s.nextSeqNum - s.base).toNat) ++ [Event.start]) h ?_ ?_ _ ?_ ?_ ?_ ?_
    · simp
    · intro e he
      rw [sentFrames_append,
        sentFrames_map_udt_send (fun k : Nat => s.window (slot (s.base + (k : Int))))] at he
      simp only [sentFrames, List.append_nil, List.mem_map, List.mem_range] at he
      obtain ⟨k, hk, rfl⟩ := he
      exact (h4 (s.base + (k : Int)) (by omega) (by omega)).2 hmax
    · rw [timeoutCheck_true_eq]; simp
    · rw [timeoutCheck_true_eq]
    · rw [timeoutCheck_true_eq]
    · rw [timeoutCheck_true_eq]

theorem eofInv_completionCheck (s : SenderState) (h : EofInv s) :
    EofInv (completionCheck s) := by
  unfold completionCheck
  split
  · rename_i hc
    simp only [Bool.and_eq_true] at hc
    obtain ⟨_, hf, ht⟩ := h
    exact ⟨fun _ => hc.1, hf, ht⟩
  · exact h

theorem eofInv_of_reachable (env : Env) (file : List Nat) (s : SenderState)
    (hmax : env.MAX_PAYLOAD_LENGTH ≤ 255) (h : Reachable env file s) : EofInv s := by
  induction h with
  | init => exact eofInv_init env file
  | fillBody s _ hc ih => exact eofInv_fillBody env s hmax ih hc
  | poll s recv _ ih => exact eofInv_poll env s recv ih
  | timeoutCheck s expired hs ih =>
    exact eofInv_timeoutCheck env s expired hmax (windowInv_of_reachable env file s hs) ih
  | completionCheck s _ ih => exact eofInv_completionCheck s ih


/-! ## Counting end-of-file frames -/

theorem filter_eof_eq_nil (l : List datagramS) (h : ∀ e ∈ l, e.payloadLength ≠ 0) :
    l.filter (fun d => d.payloadLength == 0) = [] := by
  induction l with
  | nil => rfl
  | cons d rest ih =>
    have hd : d.payloadLength ≠ 0 := h d (List.mem_cons_self _ _)
    have hr : ∀ e ∈ rest, e.payloadLength ≠ 0 := fun e he => h e (List.mem_cons_of_mem _ he)
    simp [List.filter_cons, hd, ih hr]

theorem eofCount_of_eofInv (s : SenderState) (h : EofInv s) :
    eofCount s.trace = if s.allSent then 1 else 0 := by
  obtain ⟨_, hf, ht⟩ := h
  cases hs : s.allSent
  · obtain ⟨_, hf2⟩ := hf hs
    simp [eofCount, filter_eof_eq_nil _ hf2]
  · obtain ⟨pre, d, post, e1, e2, _, _, e5, e6⟩ := ht hs
    simp [eofCount, e1, sentFrames_append, sentFrames, List.filter_append,
      filter_eof_eq_nil _ e5, filter_eof_eq_nil _ e6, List.filter_cons, e2]

/-! ## Frames that the polling phase ignores -/

theorem poll_out_of_range (env : Env) (s : SenderState) (f : datagramS)
    (hv : env.validateChecksum f = true)
    (hr : f.ackNum < s.base ∨ s.nextSeqNum ≤ f.ackNum) :
    poll env s (some f) = s := by
  have hn : ¬ (f.ackNum ≥ s.base ∧ f.ackNum < s.nextSeqNum) := by omega
  simp [poll, hv, hn]

/-! ## `allSent` stays true -/

theorem fillBody_allSent (env : Env) (s : SenderState) (h : s.allSent = true) :
    (fillBody env s).allSent = true := by
  unfold fillBody; simp only []; split
  · rfl
  · exact h

theorem poll_allSent (env : Env) (s : SenderState) (recv : Option datagramS) :
    (poll env s recv).allSent = s.allSent := by
  unfold poll
  split
  · rfl
  · split
    · rfl
    · split
      · split <;> rfl
      · split <;> rfl

theorem timeoutCheck_allSent (s : SenderState) (expired : Bool) :
    (timeoutCheck s expired).allSent = s.allSent := by
  cases expired
  · rfl
  · rw [timeoutCheck_true_eq]

theorem completionCheck_allSent (s : SenderState) :
    (completionCheck s).allSent = s.allSent := by
  unfold completionCheck
  split <;> rfl

/-! ## Properties of the sender loop -/

/-- C1 (window bound): in every state the sender loop can reach from the
initial state `base = 1`, `nextSeqNum = 1`, by rounds of the filling loop,
polling phases with any received frame, timeout phases and completion
checks, `0 ≤ nextSeqNum - base ≤ WINDOW_SIZE` holds, and `WINDOW_SIZE` is
10. -/
theorem window_bound (env : Env) (file : List Nat) (s : SenderState)
    (h : Reachable env file s) :
    (initState env file).base = 1 ∧ (initState env file).nextSeqNum = 1 ∧
    WINDOW_SIZE = 10 ∧
    0 ≤ s.nextSeqNum - s.base ∧ s.nextSeqNum - s.base ≤ WINDOW_SIZE := by
  obtain ⟨_, h2, h3, _⟩ := windowInv_of_reachable env file s h
  refine ⟨rfl, rfl, rfl, ?_, ?_⟩
  · omega
  · omega

theorem window_bound_witness :
    Reachable sampleEnv [7] (fillBody sampleEnv (initState sampleEnv [7])) ∧
    ((initState sampleEnv [7]).base = 1 ∧ (initState sampleEnv [7]).nextSeqNum = 1 ∧
      WINDOW_SIZE = 10 ∧
      0 ≤ (fillBody sampleEnv (initState sampleEnv [7])).nextSeqNum -
          (fillBody sampleEnv (initState sampleEnv [7])).base ∧
      (fillBody sampleEnv (initState sampleEnv [7])).nextSeqNum -
          (fillBody sampleEnv (initState sampleEnv [7])).base ≤ WINDOW_SIZE) :=
  ⟨Reachable.fillBody _ Reachable.init (by decide),
   window_bound sampleEnv [7] _ (Reachable.fillBody _ Reachable.init (by decide))⟩

/-- C2 (completion), where the code departs from it: for a file of one byte
and a first iteration in which nothing is received and the timer has not
expired, the loop sends the data frame 1 and the end-of-file frame 2 and then
stops (its guard is false, further inputs change nothing) with `allSent`
true, `base = 1`, `nextSeqNum = 2` and `allAcked` false: frame 1 is still
unacknowledged. -/
theorem completion_one_byte_file_stops_unacked :
    loopCond (run sampleEnv (initState sampleEnv [7]) [⟨none, false⟩]) = false ∧
    (run sampleEnv (initState sampleEnv [7]) [⟨none, false⟩]).allSent = true ∧
    (run sampleEnv (initState sampleEnv [7]) [⟨none, false⟩]).base = 1 ∧
    (run sampleEnv (initState sampleEnv [7]) [⟨none, false⟩]).nextSeqNum = 2 ∧
    (run sampleEnv (initState sampleEnv [7]) [⟨none, false⟩]).allAcked = false ∧
    (sentFrames (run sampleEnv (initState sampleEnv [7]) [⟨none, false⟩]).trace).map
      (fun d => (d.seqNum, d.payloadLength)) = [(1, 1), (2, 0)] := by
  decide

/-- C3 (Go-Back-N retransmission): in every reachable state, a timeout phase
in which the timer reports expiry passes to `udt_send` exactly
`nextSeqNum - base` frames, the contents of the slots of `base`, `base + 1`,
..., `nextSeqNum - 1` in this order, whose sequence numbers are these very
numbers; it then calls `timer.start`, and it changes neither `base` nor
`nextSeqNum` (nor the window, `allSent`, `allAcked` or the file). -/
theorem go_back_n_retransmission (env : Env) (file : List Nat) (s : SenderState)
    (h : Reachable env file s) :
    ∃ frames : List datagramS,
      (timeoutCheck s true).trace = s.trace ++ frames.map Event.udt_send ++ [Event.start] ∧
      frames.length = (s.nextSeqNum - s.base).toNat ∧
      frames = List.map (fun k : Nat => s.window (slot (s.base + (k : Int))))
        (List.range (s.nextSeqNum - s.base).toNat) ∧
      frames.map (fun d => d.seqNum) =
        List.map (fun k : Nat => s.base + (k : Int))
          (List.range (s.nextSeqNum - s.base).toNat) ∧
      (timeoutCheck s true).base = s.base ∧
      (timeoutCheck s true).nextSeqNum = s.nextSeqNum ∧
      (timeoutCheck s true).window = s.window ∧
      (timeoutCheck s true).allSent = s.allSent ∧
      (timeoutCheck s true).allAcked = s.allAcked ∧
      (timeoutCheck s true).inputFile = s.inputFile ∧
      (timeoutCheck s true).timerRunning = true := by
  obtain ⟨_, _, _, h4⟩ := windowInv_of_reachable env file s h
  refine ⟨List.map (fun k : Nat => s.window (slot (s.base + (k : Int))))
    (List.range (s.nextSeqNum - s.base).toNat), ?_, ?_, rfl, ?_, ?_⟩
  · rw [timeoutCheck_true_eq]
    simp only [List.map_map]
    rfl
  · simp
  · rw [List.map_map]
    apply List.map_congr_left
    intro k hk
    have hk2 : k < (s.nextSeqNum - s.base).toNat := List.mem_range.1 hk
    exact (h4 (s.base + (k : Int)) (by omega) (by omega)).1
  · rw [timeoutCheck_true_eq]
    exact ⟨rfl, rfl, rfl, rfl, rfl, rfl, rfl⟩

theorem go_back_n_retransmission_witness :
    Reachable sampleEnv [7, 8] (fill sampleEnv (initState sampleEnv [7, 8])) ∧
    ∃ frames : List datagramS,
      (timeoutCheck (fill sampleEnv (initState sampleEnv [7, 8])) true).trace =
        (fill sampleEnv (initState sampleEnv [7, 8])).trace ++
          frames.map Event.udt_send ++ [Event.start] ∧
      frames.length = 1 ∧
      frames.map (fun d => d.seqNum) = [1] := by
  refine ⟨reachable_fill _ _ _ Reachable.init, ?_⟩
  obtain ⟨frames, h1, h2, _, h4, _⟩ :=
    go_back_n_retransmission sampleEnv [7, 8] _
      (reachable_fill sampleEnv [7, 8] _ Reachable.init)
  exact ⟨frames, h1, h2, h4⟩

/-- C4 (cumulative acknowledgment): for every state and every received frame
that passes `validateChecksum` with `base ≤ ackNum < nextSeqNum`, the polling
phase sets `base` to `ackNum + 1`, leaves `nextSeqNum`, `allSent`, `allAcked`,
the window and the file unchanged, and makes exactly one timer call:
`timer.stop` if the new `base` equals `nextSeqNum`, `timer.start`
otherwise. -/
theorem cumulative_ack (env : Env) (s : SenderState) (f : datagramS)
    (hv : env.validateChecksum f = true) (hlo : s.base ≤ f.ackNum)
    (hhi : f.ackNum < s.nextSeqNum) :
    (poll env s (some f)).base = f.ackNum + 1 ∧
    (poll env s (some f)).nextSeqNum = s.nextSeqNum ∧
    (poll env s (some f)).allSent = s.allSent ∧
    (poll env s (some f)).allAcked = s.allAcked ∧
    (poll env s (some f)).window = s.window ∧
    (poll env s (some f)).inputFile = s.inputFile ∧
    (f.ackNum + 1 = s.nextSeqNum →
      (poll env s (some f)).trace = s.trace ++ [Event.stop] ∧
      (poll env s (some f)).timerRunning = false) ∧
    (f.ackNum + 1 ≠ s.nextSeqNum →
      (poll env s (some f)).trace = s.trace ++ [Event.start] ∧
      (poll env s (some f)).timerRunning = true) := by
  have hr : f.ackNum ≥ s.base ∧ f.ackNum < s.nextSeqNum := ⟨hlo, hhi⟩
  by_cases he : f.ackNum + 1 = s.nextSeqNum
  · simp [poll, hv, hr, he]
  · simp [poll, hv, hr, he]

theorem cumulative_ack_witness :
    sampleEnv.validateChecksum ⟨0, 1, 1, 0, []⟩ = true ∧
    (fill sampleEnv (initState sampleEnv [7])).base ≤ 1 ∧
    (1 : Int) < (fill sampleEnv (initState sampleEnv [7])).nextSeqNum ∧
    (poll sampleEnv (fill sampleEnv (initState sampleEnv [7])) (some ⟨0, 1, 1, 0, []⟩)).base
      = 2 :=
  ⟨by decide, by decide, by decide,
   (cumulative_ack sampleEnv (fill sampleEnv (initState sampleEnv [7])) ⟨0, 1, 1, 0, []⟩
      (by decide) (by decide) (by decide)).1⟩

/-- C5 (monotonicity): `base` never decreases and `nextSeqNum` never decreases,
in any round of the filling loop, any polling phase (whatever frame is
received, valid or not), any timeout phase, any completion check, any whole
iteration, and from any run of the loop to the run with one more input. -/
theorem base_nextSeqNum_monotone (env : Env) :
    (∀ s, s.base ≤ (fillBody env s).base ∧ s.nextSeqNum ≤ (fillBody env s).nextSeqNum) ∧
    (∀ s recv, s.base ≤ (poll env s recv).base ∧
      s.nextSeqNum ≤ (poll env s recv).nextSeqNum) ∧
    (∀ s expired, s.base ≤ (timeoutCheck s expired).base ∧
      s.nextSeqNum ≤ (timeoutCheck s expired).nextSeqNum) ∧
    (∀ s, s.base ≤ (completionCheck s).base ∧
      s.nextSeqNum ≤ (completionCheck s).nextSeqNum) ∧
    (∀ s inp, s.base ≤ (iteration env s inp).base ∧
      s.nextSeqNum ≤ (iteration env s inp).nextSeqNum) ∧
    (∀ s inputs inp,
      (run env s inputs).base ≤ (run env s (inputs ++ [inp])).base ∧
      (run env s inputs).nextSeqNum ≤ (run env s (inputs ++ [inp])).nextSeqNum) := by
  refine ⟨fillBody_mono env, poll_mono env, timeoutCheck_mono, completionCheck_mono,
    iteration_mono env, ?_⟩
  intro s inputs inp
  rw [run_append_singleton]
  split
  · exact iteration_mono env _ inp
  · exact ⟨le_refl _, le_refl _⟩

/-- C6 (out-of-range acknowledgments): for every state and every received
frame that passes `validateChecksum` with `ackNum < base` or
`ackNum ≥ nextSeqNum`, the polling phase returns the state it was given:
`base`, `nextSeqNum`, `allSent`, the window, the timer and the trace of calls
(so no `timer.start` or `timer.stop`) are unchanged. -/
theorem out_of_range_ack_ignored (env : Env) (s : SenderState) (f : datagramS)
    (hv : env.validateChecksum f = true)
    (hr : f.ackNum < s.base ∨ s.nextSeqNum ≤ f.ackNum) :
    poll env s (some f) = s :=
  poll_out_of_range env s f hv hr

theorem out_of_range_ack_ignored_witness :
    sampleEnv.validateChecksum ⟨0, 1, 1, 0, []⟩ = true ∧
    ((1 : Int) < (poll sampleEnv (fill sampleEnv (initState sampleEnv [7, 8]))
        (some ⟨0, 1, 1, 0, []⟩)).base ∨
      (poll sampleEnv (fill sampleEnv (initState sampleEnv [7, 8]))
        (some ⟨0, 1, 1, 0, []⟩)).nextSeqNum ≤ 1) ∧
    poll sampleEnv
      (poll sampleEnv (fill sampleEnv (initState sampleEnv [7, 8])) (some ⟨0, 1, 1, 0, []⟩))
      (some ⟨0, 1, 1, 0, []⟩) =
    poll sampleEnv (fill sampleEnv (initState sampleEnv [7, 8])) (some ⟨0, 1, 1, 0, []⟩) :=
  ⟨by decide, by decide,
   out_of_range_ack_ignored sampleEnv _ ⟨0, 1, 1, 0, []⟩ (by decide) (by decide)⟩

/-- C7 (corrupted frames): for every state and every received frame for which
`validateChecksum` is false, whatever its `ackNum`, the polling phase returns
the state it was given: `base`, `nextSeqNum`, `allSent`, the window, the
timer and the trace of calls are unchanged. -/
theorem bad_checksum_discarded (env : Env) (s : SenderState) (f : datagramS)
    (hv : env.validateChecksum f = false) :
    poll env s (some f) = s := by
  simp [poll, hv]

theorem bad_checksum_discarded_witness :
    sampleEnv.validateChecksum ⟨0, 1, 99, 0, []⟩ = false ∧
    (fill sampleEnv (initState sampleEnv [7])).base ≤ 1 ∧
    (1 : Int) < (fill sampleEnv (initState sampleEnv [7])).nextSeqNum ∧
    poll sampleEnv (fill sampleEnv (initState sampleEnv [7])) (some ⟨0, 1, 99, 0, []⟩) =
      fill sampleEnv (initState sampleEnv [7]) :=
  ⟨by decide, by decide, by decide,
   bad_checksum_discarded sampleEnv _ ⟨0, 1, 99, 0, []⟩ (by decide)⟩

/-- C8 (EOF exactly once), for payload lengths that fit in 8 bits
(`MAX_PAYLOAD_LENGTH ≤ 255`): in every reachable state the number of frames
of payload length zero passed to `udt_send` so far, retransmissions
included, is 1 if `allSent` is true and 0 if it is false, and no phase makes
`allSent` false again; and in every run of the loop that has stopped,
`allSent` is true, exactly one frame of payload length zero was sent, and it
was sent right after the first read that returned zero bytes. -/
theorem eof_exactly_once (env : Env) (file : List Nat)
    (hmax : env.MAX_PAYLOAD_LENGTH ≤ 255) :
    (∀ s, Reachable env file s → eofCount s.trace = if s.allSent then 1 else 0) ∧
    (∀ s, s.allSent = true →
      (fillBody env s).allSent = true ∧ (∀ recv, (poll env s recv).allSent = true) ∧
      (∀ expired, (timeoutCheck s expired).allSent = true) ∧
      (completionCheck s).allSent = true) ∧
    (∀ inputs, loopCond (run env (initState env file) inputs) = false →
      (run env (initState env file) inputs).allSent = true ∧
      eofCount (run env (initState env file) inputs).trace = 1 ∧
      ∃ pre d post,
        (run env (initState env file) inputs).trace =
          pre ++ [Event.read 0, Event.udt_send d] ++ post ∧
        d.payloadLength = 0 ∧ Event.read 0 ∉ pre ∧
        (∀ e ∈ sentFrames pre, e.payloadLength ≠ 0) ∧
        (∀ e ∈ sentFrames post, e.payloadLength ≠ 0)) := by
  refine ⟨?_, ?_, ?_⟩
  · intro s hs
    exact eofCount_of_eofInv s (eofInv_of_reachable env file s hmax hs)
  · intro s hs
    refine ⟨fillBody_allSent env s hs, ?_, ?_, ?_⟩
    · intro recv; rw [poll_allSent]; exact hs
    · intro expired; rw [timeoutCheck_allSent]; exact hs
    · rw [completionCheck_allSent]; exact hs
  · intro inputs hstop
    have hinv := eofInv_of_reachable env file _ hmax (reachable_run env file inputs)
    have hsent : (run env (initState env file) inputs).allSent = true := by
      cases hq : (run env (initState env file) inputs).allSent
      · cases ha : (run env (initState env file) inputs).allAcked
        · simp [loopCond, hq, ha] at hstop
        · rw [hinv.1 ha] at hq; cases hq
      · rfl
    refine ⟨hsent, ?_, ?_⟩
    · rw [eofCount_of_eofInv _ hinv, hsent]; rfl
    · obtain ⟨pre, d, post, e1, e2, _, e4, e5, e6⟩ := hinv.2.2 hsent
      exact ⟨pre, d, post, e1, e2, e4, e5, e6⟩

theorem eof_exactly_once_witness :
    sampleEnv.MAX_PAYLOAD_LENGTH ≤ 255 ∧
    loopCond (run sampleEnv (initState sampleEnv [7]) [⟨none, true⟩]) = false ∧
    eofCount (run sampleEnv (initState sampleEnv [7]) [⟨none, true⟩]).trace = 1 :=
  ⟨by decide, by decide,
   ((eof_exactly_once sampleEnv [7] (by decide)).2.2 [⟨none, true⟩] (by decide)).2.1⟩

/-- C9 (acknowledgment of the EOF marker), where the code departs from it: for
a file of one byte the filling phase sends the data frame 1 and the EOF
marker with sequence number 2 and leaves `nextSeqNum` at 2; a frame that
passes `validateChecksum` with `ackNum = 2` is then not accepted: the polling
phase returns the state unchanged, with `base` still 1. -/
theorem eof_ack_ignored_one_byte_file :
    (sentFrames (fill sampleEnv (initState sampleEnv [7])).trace).map
      (fun d => (d.seqNum, d.payloadLength)) = [(1, 1), (2, 0)] ∧
    (fill sampleEnv (initState sampleEnv [7])).allSent = true ∧
    (fill sampleEnv (initState sampleEnv [7])).nextSeqNum = 2 ∧
    sampleEnv.validateChecksum ⟨0, 2, 2, 0, []⟩ = true ∧
    poll sampleEnv (fill sampleEnv (initState sampleEnv [7])) (some ⟨0, 2, 2, 0, []⟩) =
      fill sampleEnv (initState sampleEnv [7]) ∧
    (poll sampleEnv (fill sampleEnv (initState sampleEnv [7]))
      (some ⟨0, 2, 2, 0, []⟩)).base = 1 :=
  ⟨by decide, by decide, by decide, by decide,
   poll_out_of_range sampleEnv _ ⟨0, 2, 2, 0, []⟩ (by decide) (by decide), by decide⟩

/-- C10 (retransmission of the EOF marker), where the code departs from it:
for a file of one byte, after the filling phase has sent the data frame 1 and
the EOF marker 2 and nothing has been acknowledged (`base = 1`), a timer
expiry makes the timeout phase send one frame only, the data frame 1: the
EOF marker is not retransmitted. -/
theorem eof_not_retransmitted_one_byte_file :
    (sentFrames (fill sampleEnv (initState sampleEnv [7])).trace).map
      (fun d => (d.seqNum, d.payloadLength)) = [(1, 1), (2, 0)] ∧
    (fill sampleEnv (initState sampleEnv [7])).allSent = true ∧
    (fill sampleEnv (initState sampleEnv [7])).base = 1 ∧
    (sentFrames (timeoutCheck (fill sampleEnv (initState sampleEnv [7])) true).trace).map
      (fun d => (d.seqNum, d.payloadLength)) = [(1, 1), (2, 0), (1, 1)] := by
  decide

/-! ## The outer loop once its guard is false -/

theorem run_of_loopCond_false (env : Env) (s : SenderState) (inputs : List Input)
    (h : loopCond s = false) : run env s inputs = s := by
  cases inputs with
  | nil => rfl
  | cons inp rest => simp [run, h]

theorem run_cons_of_loopCond (env : Env) (s : SenderState) (inp : Input)
    (rest : List Input) (h : loopCond s = true) :
    run env s (inp :: rest) = run env (iteration env s inp) rest := by
  simp [run, h]

/-! ## What a round of the inner loop sends -/

theorem fillBody_trace (env : Env) (s : SenderState) :
    (fillBody env s).trace =
      s.trace ++ [Event.read (s.inputFile.take env.MAX_PAYLOAD_LENGTH).length,
        Event.udt_send (fillFrame env s)] ++
      (if (s.inputFile.take env.MAX_PAYLOAD_LENGTH).length ≠ 0 ∧ s.base = s.nextSeqNum
        then [Event.setDuration TIMEOUT_MS, Event.start] else []) := by
  unfold fillFrame fillBody; simp only []
  split
  · rename_i hz
    simp [hz]
  · rename_i hz
    simp only [ne_eq, hz, not_false_eq_true, true_and, Function.update_same]

theorem fillFrame_seqNum (env : Env) (s : SenderState) :
    (fillFrame env s).seqNum = s.nextSeqNum := by
  unfold fillFrame fillBody; simp only []
  split <;> simp

theorem fillFrame_payloadLength (env : Env) (s : SenderState) :
    (fillFrame env s).payloadLength =
      (s.inputFile.take env.MAX_PAYLOAD_LENGTH).length % 256 := by
  unfold fillFrame fillBody; simp only []
  split
  · rename_i hz
    simp [hz]
  · simp

theorem fillFrame_data (env : Env) (s : SenderState) :
    (fillFrame env s).data =
      s.inputFile.take env.MAX_PAYLOAD_LENGTH ++
        (s.window (slot s.nextSeqNum)).data.drop
          (s.inputFile.take env.MAX_PAYLOAD_LENGTH).length := by
  unfold fillFrame fillBody; simp only []
  split <;> simp

theorem fillBody_window (env : Env) (s : SenderState) :
    (fillBody env s).window = Function.update s.window (slot s.nextSeqNum) (fillFrame env s) := by
  unfold fillFrame fillBody; simp only []
  split <;> simp

theorem fillBody_inputFile (env : Env) (s : SenderState) :
    (fillBody env s).inputFile = s.inputFile.drop env.MAX_PAYLOAD_LENGTH := by
  unfold fillBody; simp only []
  split <;> rfl

theorem fillBody_allSent_eq (env : Env) (s : SenderState) (h : s.allSent = false) :
    (fillBody env s).allSent = decide ((s.inputFile.take env.MAX_PAYLOAD_LENGTH).length = 0) := by
  unfold fillBody; simp only []
  split
  · rename_i hz
    simp [hz]
  · rename_i hz
    simp only [hz, h, decide_False]

theorem fillBody_nextSeqNum_eq (env : Env) (s : SenderState) :
    (fillBody env s).nextSeqNum =
      if (s.inputFile.take env.MAX_PAYLOAD_LENGTH).length = 0 then s.nextSeqNum
      else s.nextSeqNum + 1 := by
  unfold fillBody; simp only []
  split
  · rename_i hz
    simp [hz]
  · rename_i hz
    simp [hz]

theorem fillBody_timerRunning (env : Env) (s : SenderState) :
    (fillBody env s).timerRunning =
      if (s.inputFile.take env.MAX_PAYLOAD_LENGTH).length ≠ 0 ∧ s.base = s.nextSeqNum
      then true else s.timerRunning := by
  unfold fillBody; simp only []
  split
  · rename_i hz
    simp [hz]
  · rename_i hz
    simp only [ne_eq, hz, not_false_eq_true, true_and]

theorem fillBody_allAcked (env : Env) (s : SenderState) :
    (fillBody env s).allAcked = s.allAcked := by
  unfold fillBody; simp only []
  split <;> rfl

/-! ## Scenario A and termination -/

/-- C11 (scenario A), where the code departs from it: for an empty file and
a first iteration in which nothing is received and the timer has not
expired, exactly one frame is sent, with sequence number 1 and payload
length 0, but the completion check finds `base == nextSeqNum` (both are
still 1) and sets `allAcked`, and the loop stops, although no acknowledgment
has been received; further inputs change nothing. -/
theorem scenario_A_completes_without_ack :
    (sentFrames (run sampleEnv (initState sampleEnv []) [⟨none, false⟩]).trace).map
      (fun d => (d.seqNum, d.payloadLength)) = [(1, 0)] ∧
    (run sampleEnv (initState sampleEnv []) [⟨none, false⟩]).base = 1 ∧
    (run sampleEnv (initState sampleEnv []) [⟨none, false⟩]).nextSeqNum = 1 ∧
    (run sampleEnv (initState sampleEnv []) [⟨none, false⟩]).allAcked = true ∧
    loopCond (run sampleEnv (initState sampleEnv []) [⟨none, false⟩]) = false ∧
    ∀ rest : List Input,
      run sampleEnv (initState sampleEnv []) (⟨none, false⟩ :: rest) =
        run sampleEnv (initState sampleEnv []) [⟨none, false⟩] := by
  refine ⟨by decide, by decide, by decide, by decide, by decide, ?_⟩
  intro rest
  rw [run_cons_of_loopCond _ _ _ _ (by decide), run_cons_of_loopCond _ _ _ _ (by decide)]
  rw [run_of_loopCond_false _ _ rest (by decide), run_of_loopCond_false _ _ [] (by decide)]

/-- C16 (termination), where the code departs from it: for a file of one
byte and a schedule whose first iteration receives nothing and whose later
iterations deliver checksum-valid acknowledgments for the frames 1 and 2
(and anything after them), the loop stops after the first iteration and
`allAcked` is false in its final state: `allAcked == true` is never
reached. -/
theorem termination_one_byte_file_never_allAcked :
    sampleEnv.validateChecksum ⟨0, 1, 1, 0, []⟩ = true ∧
    sampleEnv.validateChecksum ⟨0, 2, 2, 0, []⟩ = true ∧
    ∀ rest : List Input,
      (run sampleEnv (initState sampleEnv [7])
        (⟨none, false⟩ :: ⟨some ⟨0, 1, 1, 0, []⟩, false⟩ ::
          ⟨some ⟨0, 2, 2, 0, []⟩, false⟩ :: rest)).allAcked = false ∧
      (run sampleEnv (initState sampleEnv [7])
        (⟨none, false⟩ :: ⟨some ⟨0, 1, 1, 0, []⟩, false⟩ ::
          ⟨some ⟨0, 2, 2, 0, []⟩, false⟩ :: rest)).base = 1 ∧
      loopCond (run sampleEnv (initState sampleEnv [7])
        (⟨none, false⟩ :: ⟨some ⟨0, 1, 1, 0, []⟩, false⟩ ::
          ⟨some ⟨0, 2, 2, 0, []⟩, false⟩ :: rest)) = false := by
  refine ⟨by decide, by decide, ?_⟩
  intro rest
  rw [run_cons_of_loopCond _ _ _ _ (by decide), run_of_loopCond_false _ _ _ (by decide)]
  exact ⟨by decide, by decide, by decide⟩

/-! ## The payload length field -/

/-- C19 (payload length without truncation): the payload length that a round
of the inner loop stores for a read of `bytesRead ≥ 1` bytes, the 8-bit value
`bytesRead % 256`, equals `bytesRead` in every state exactly when
`MAX_PAYLOAD_LENGTH ≤ 255`; in that case it is not zero, and as long as
`allSent` is false no frame of payload length zero has been sent in any
reachable state. -/
theorem payloadLength_without_truncation (env : Env) :
    ((∀ s : SenderState, (s.inputFile.take env.MAX_PAYLOAD_LENGTH).length ≠ 0 →
        (fillFrame env s).payloadLength =
          (s.inputFile.take env.MAX_PAYLOAD_LENGTH).length) ↔
      env.MAX_PAYLOAD_LENGTH ≤ 255) ∧
    (env.MAX_PAYLOAD_LENGTH ≤ 255 →
      (∀ s : SenderState, (s.inputFile.take env.MAX_PAYLOAD_LENGTH).length ≠ 0 →
        (fillFrame env s).payloadLength ≠ 0) ∧
      (∀ file s, Reachable env file s → s.allSent = false →
        ∀ d ∈ sentFrames s.trace, d.payloadLength ≠ 0)) := by
  refine ⟨⟨?_, ?_⟩, ?_⟩
  · intro h
    by_contra hgt
    have hl : ((List.replicate 256 0).take env.MAX_PAYLOAD_LENGTH).length = 256 := by
      rw [List.length_take, List.length_replicate]; omega
    have h256 := h (initState env (List.replicate 256 0)) (by
      show (List.take _ (List.replicate 256 0)).length ≠ 0
      rw [hl]; decide)
    rw [fillFrame_payloadLength] at h256
    change (List.take _ (List.replicate 256 0)).length % 256 =
      (List.take _ (List.replicate 256 0)).length at h256
    rw [hl] at h256
    omega
  · intro hmax s hz
    rw [fillFrame_payloadLength]
    have hlen := chunk_length_le env s.inputFile
    omega
  · intro hmax
    refine ⟨?_, ?_⟩
    · intro s hz
      rw [fillFrame_payloadLength]
      have hlen := chunk_length_le env s.inputFile
      omega
    · intro file s hs hsent
      exact ((eofInv_of_reachable env file s hmax hs).2.1 hsent).2

/-! ## The timer and the window -/

theorem timedReachable_reachable (env : Env) (file : List Nat) (s : SenderState)
    (h : TimedReachable env file s) : Reachable env file s := by
  induction h with
  | init => exact Reachable.init
  | fillBody s _ hc ih => exact Reachable.fillBody s ih hc
  | poll s recv _ ih => exact Reachable.poll s recv ih
  | timeoutCheck s expired _ _ ih => exact Reachable.timeoutCheck s expired ih
  | completionCheck s _ ih => exact Reachable.completionCheck s ih

theorem timedReachable_fillLoop (env : Env) (file : List Nat) (n : Nat) (s : SenderState)
    (h : TimedReachable env file s) : TimedReachable env file (fillLoop env n s) := by
  induction n generalizing s with
  | zero => exact h
  | succ n ih =>
    unfold fillLoop
    split
    · rename_i hc
      exact ih _ (TimedReachable.fillBody s h hc)
    · exact h

theorem timedReachable_fill (env : Env) (file : List Nat) (s : SenderState)
    (h : TimedReachable env file s) : TimedReachable env file (fill env s) :=
  timedReachable_fillLoop env file _ s h

theorem timerInv_of_timedReachable (env : Env) (file : List Nat) (s : SenderState)
    (h : TimedReachable env file s) : TimerInv s := by
  induction h with
  | init => simp [TimerInv, initState]
  | fillBody s hs hc ih =>
    obtain ⟨_, h2, _, _⟩ := windowInv_of_reachable env file s
      (timedReachable_reachable env file s hs)
    unfold TimerInv at ih ⊢
    rw [fillBody_timerRunning, fillBody_base, fillBody_nextSeqNum_eq]
    by_cases hz : (s.inputFile.take env.MAX_PAYLOAD_LENGTH).length = 0
    · simp only [hz, ne_eq, not_true_eq_false, false_and, if_false, if_true]
      exact ih
    · by_cases hb : s.base = s.nextSeqNum
      · simp only [hz, hb, ne_eq, not_false_eq_true, and_self, if_true, if_false, true_iff]
        omega
      · simp only [hz, hb, ne_eq, not_false_eq_true, and_false, if_false]
        constructor
        · intro _; omega
        · intro _; exact ih.2 (by omega)
  | poll s recv hs ih =>
    unfold TimerInv at ih ⊢
    unfold poll
    split
    · exact ih
    · split
      · exact ih
      · split
        · rename_i hr
          split
          · rename_i he
            simp only []
            constructor
            · intro hq; cases hq
            · intro hq; omega
          · rename_i he
            simp only []
            constructor
            · intro _; omega
            · intro _; trivial
        · split <;> exact ih
  | timeoutCheck s expired hs hexp ih =>
    unfold TimerInv at ih ⊢
    cases expired
    · exact ih
    · rw [timeoutCheck_true_eq]
      simp only []
      constructor
      · intro _; exact ih.1 (hexp rfl)
      · intro _; trivial
  | completionCheck s hs ih =>
    unfold TimerInv at ih ⊢
    unfold completionCheck
    split <;> exact ih

/-- C18 (timer and window): when `timer.timeout()` is true only while the
timer is running, in every state the loop reaches (after every round of the
filling loop, every polling phase and every timeout phase) the timer is
running if and only if `base < nextSeqNum`; so an expiry is only reported in
a state where `[base, nextSeqNum)` is not empty, and a round of the filling
loop that reads zero bytes while `base = nextSeqNum` sends the EOF marker
without any timer call and leaves the timer idle. -/
theorem timer_window_coupling (env : Env) (file : List Nat) (s : SenderState)
    (h : TimedReachable env file s) :
    (s.timerRunning = true ↔ s.base < s.nextSeqNum) ∧
    (∀ expired : Bool, (expired = true → s.timerRunning = true) → expired = true →
      s.base < s.nextSeqNum ∧ 1 ≤ (s.nextSeqNum - s.base).toNat) ∧
    ((s.inputFile.take env.MAX_PAYLOAD_LENGTH).length = 0 → s.base = s.nextSeqNum →
      (fillBody env s).trace =
        s.trace ++ [Event.read 0, Event.udt_send (fillFrame env s)] ∧
      (fillFrame env s).payloadLength = 0 ∧
      (fillBody env s).timerRunning = false) := by
  have hinv := timerInv_of_timedReachable env file s h
  unfold TimerInv at hinv
  refine ⟨hinv, ?_, ?_⟩
  · intro expired hrun hexp
    have := hinv.1 (hrun hexp)
    omega
  · intro hz hb
    rw [fillBody_trace, fillFrame_payloadLength, fillBody_timerRunning]
    simp only [hz, ne_eq, not_true_eq_false, false_and, if_false, List.append_nil,
      Nat.zero_mod, true_and]
    cases hq : s.timerRunning
    · rfl
    · have := hinv.1 hq
      omega

theorem timer_window_coupling_witness :
    TimedReachable sampleEnv [7]
      (timeoutCheck (fill sampleEnv (initState sampleEnv [7])) true) ∧
    ((timeoutCheck (fill sampleEnv (initState sampleEnv [7])) true).timerRunning = true ↔
      (timeoutCheck (fill sampleEnv (initState sampleEnv [7])) true).base <
        (timeoutCheck (fill sampleEnv (initState sampleEnv [7])) true).nextSeqNum) :=
  ⟨TimedReachable.timeoutCheck _ true (timedReachable_fill _ _ _ TimedReachable.init)
      (fun _ => by decide),
   (timer_window_coupling sampleEnv [7] _
      (TimedReachable.timeoutCheck _ true (timedReachable_fill _ _ _ TimedReachable.init)
        (fun _ => by decide))).1⟩

/-! ## Checksums of the frames sent -/

theorem fillFrame_checksum (env : Env) (s : SenderState)
    (hpure : ChecksumPure env.computeChecksum) :
    (fillFrame env s).checksum = env.computeChecksum (fillFrame env s) := by
  unfold fillFrame fillBody; simp only []
  split
  · simp only [Function.update_same]
    exact hpure _ _ rfl rfl rfl rfl
  · simp only [Function.update_same]
    exact hpure _ _ rfl rfl rfl rfl

theorem checksumInv_init (env : Env) (file : List Nat) :
    ChecksumInv env (initState env file) := by
  refine ⟨by simp [initState, sentFrames], ?_⟩
  intro i h1 h2
  simp [initState] at h1 h2
  omega

theorem checksumInv_fillBody (env : Env) (s : SenderState)
    (hpure : ChecksumPure env.computeChecksum) (hw : WindowInv env s)
    (h : ChecksumInv env s) (hc : fillCond s = true) : ChecksumInv env (fillBody env s) := by
  obtain ⟨h1, h2⟩ := h
  obtain ⟨w1, w2, w3, _⟩ := hw
  obtain ⟨hc1, -⟩ := (fillCond_iff s).1 hc
  refine ⟨?_, ?_⟩
  · intro d hd
    rw [fillBody_trace] at hd
    simp only [sentFrames_append, List.mem_append] at hd
    rcases hd with (hd | hd) | hd
    · exact h1 d hd
    · simp only [sentFrames, List.mem_singleton] at hd
      subst hd
      exact fillFrame_checksum env s hpure
    · split at hd <;> simp [sentFrames] at hd
  · intro i hi1 hi2
    rw [fillBody_base] at hi1
    rw [fillBody_window]
    by_cases hi : i = s.nextSeqNum
    · subst hi
      rw [Function.update_same]
      exact fillFrame_checksum env s hpure
    · have hlt : i < s.nextSeqNum := by
        rcases fillBody_nextSeqNum env s with hn | hn <;> rw [hn] at hi2 <;> omega
      have hne : slot i ≠ slot s.nextSeqNum :=
        slot_ne i s.nextSeqNum (by omega) hlt (by omega)
      rw [Function.update_noteq hne]
      exact h2 i hi1 hlt

theorem checksumInv_poll (env : Env) (s : SenderState) (recv : Option datagramS)
    (h : ChecksumInv env s) : ChecksumInv env (poll env s recv) := by
  obtain ⟨h1, h2⟩ := h
  unfold poll
  split
  · exact ⟨h1, h2⟩
  · split
    · exact ⟨h1, h2⟩
    · split
      · rename_i hr
        split
        · refine ⟨?_, ?_⟩
          · intro d hd
            simp only [sentFrames_append, sentFrames, List.append_nil] at hd
            exact h1 d hd
          · intro i hi1 hi2
            simp only [] at hi1 hi2 ⊢
            exact h2 i (by omega) hi2
        · refine ⟨?_, ?_⟩
          · intro d hd
            simp only [sentFrames_append, sentFrames, List.append_nil] at hd
            exact h1 d hd
          · intro i hi1 hi2
            simp only [] at hi1 hi2 ⊢
            exact h2 i (by omega) hi2
      · split <;> exact ⟨h1, h2⟩

theorem checksumInv_timeoutCheck (env : Env) (s : SenderState) (expired : Bool)
    (h : ChecksumInv env s) : ChecksumInv env (timeoutCheck s expired) := by
  cases expired
  · exact h
  · obtain ⟨h1, h2⟩ := h
    rw [timeoutCheck_true_eq]
    refine ⟨?_, h2⟩
    intro d hd
    simp only [sentFrames_append, List.mem_append] at hd
    rw [sentFrames_map_udt_send (fun k : Nat => s.window (slot (s.base + (k : Int))))] at hd
    rcases hd with (hd | hd) | hd
    · exact h1 d hd
    · simp only [List.mem_map, List.mem_range] at hd
      obtain ⟨k, hk, rfl⟩ := hd
      exact h2 (s.base + (k : Int)) (by omega) (by omega)
    · simp [sentFrames] at hd

theorem checksumInv_completionCheck (env : Env) (s : SenderState)
    (h : ChecksumInv env s) : ChecksumInv env (completionCheck s) := by
  unfold completionCheck
  split
  · exact h
  · exact h

theorem checksumInv_of_reachable (env : Env) (file : List Nat) (s : SenderState)
    (hpure : ChecksumPure env.computeChecksum) (h : Reachable env file s) :
    ChecksumInv env s := by
  induction h with
  | init => exact checksumInv_init env file
  | fillBody s hs hc ih =>
    exact checksumInv_fillBody env s hpure (windowInv_of_reachable env file s hs) ih hc
  | poll s recv _ ih => exact checksumInv_poll env s recv ih
  | timeoutCheck s expired _ ih => exact checksumInv_timeoutCheck env s expired ih
  | completionCheck s _ ih => exact checksumInv_completionCheck env s ih

theorem checksumPure_sampleChecksum : ChecksumPure sampleChecksum := by
  intro d e h1 h2 h3 h4
  simp [sampleChecksum, h1, h2, h3, h4]

/-- C17 (checksums of the frames sent): when `computeChecksum` depends only on
the sequence number, the acknowledgment number, the payload length and the
payload of a frame, and `validateChecksum` recomputes and compares, every
frame passed to `udt_send` in a reachable state (sent for the first time, as
data or as EOF marker, or resent on a timeout) has a checksum field equal to
`computeChecksum` of the frame itself and is accepted by
`validateChecksum`; so is the frame that a round of the filling loop builds
and each frame that a timeout phase resends. -/
theorem sent_frames_checksum_valid (env : Env) (file : List Nat) (s : SenderState)
    (hpure : ChecksumPure env.computeChecksum)
    (hval : ∀ d, env.validateChecksum d = specValidateChecksum env.computeChecksum d)
    (h : Reachable env file s) :
    (∀ d ∈ sentFrames s.trace,
      d.checksum = env.computeChecksum d ∧ env.validateChecksum d = true) ∧
    ((fillFrame env s).checksum = env.computeChecksum (fillFrame env s) ∧
      env.validateChecksum (fillFrame env s) = true) ∧
    (∀ i : Int, s.base ≤ i → i < s.nextSeqNum →
      (s.window (slot i)).checksum = env.computeChecksum (s.window (slot i)) ∧
      env.validateChecksum (s.window (slot i)) = true) := by
  obtain ⟨h1, h2⟩ := checksumInv_of_reachable env file s hpure h
  refine ⟨?_, ?_, ?_⟩
  · intro d hd
    refine ⟨h1 d hd, ?_⟩
    rw [hval]
    simp [specValidateChecksum, ← h1 d hd]
  · refine ⟨fillFrame_checksum env s hpure, ?_⟩
    rw [hval]
    simp [specValidateChecksum, ← fillFrame_checksum env s hpure]
  · intro i hi1 hi2
    refine ⟨h2 i hi1 hi2, ?_⟩
    rw [hval]
    simp [specValidateChecksum, ← h2 i hi1 hi2]

theorem sent_frames_checksum_valid_witness :
    ChecksumPure sampleEnv.computeChecksum ∧
    (∀ d, sampleEnv.validateChecksum d = specValidateChecksum sampleEnv.computeChecksum d) ∧
    Reachable sampleEnv [7]
      (timeoutCheck (fill sampleEnv (initState sampleEnv [7])) true) ∧
    ∀ d ∈ sentFrames (timeoutCheck (fill sampleEnv (initState sampleEnv [7])) true).trace,
      d.checksum = sampleEnv.computeChecksum d ∧ sampleEnv.validateChecksum d = true :=
  ⟨checksumPure_sampleChecksum, fun _ => rfl,
   Reachable.timeoutCheck _ true (reachable_fill _ _ _ Reachable.init),
   (sent_frames_checksum_valid sampleEnv [7] _ checksumPure_sampleChecksum (fun _ => rfl)
      (Reachable.timeoutCheck _ true (reachable_fill _ _ _ Reachable.init))).1⟩

/-! ## The phases other than filling, seen in the trace -/

theorem fillLoop_succ_of_cond (env : Env) (n : Nat) (s : SenderState)
    (h : fillCond s = true) : fillLoop env (n + 1) s = fillLoop env n (fillBody env s) := by
  simp [fillLoop, h]

theorem fillLoop_of_not_cond (env : Env) (n : Nat) (s : SenderState)
    (h : fillCond s = false) : fillLoop env n s = s := by
  cases n with
  | zero => rfl
  | succ n => simp [fillLoop, h]

theorem poll_trace_cases (env : Env) (s : SenderState) (recv : Option datagramS) :
    (poll env s recv).trace = s.trace ∨
    (poll env s recv).trace = s.trace ++ [Event.stop] ∨
    ((poll env s recv).trace = s.trace ++ [Event.start] ∧ s.base + 1 < s.nextSeqNum) := by
  unfold poll
  split
  · left; rfl
  · split
    · left; rfl
    · split
      · rename_i hr
        split
        · right; left; rfl
        · right; right
          refine ⟨rfl, ?_⟩
          omega
      · split <;> (left; rfl)

theorem poll_nextSeqNum (env : Env) (s : SenderState) (recv : Option datagramS) :
    (poll env s recv).nextSeqNum = s.nextSeqNum := by
  unfold poll
  split
  · rfl
  · split
    · rfl
    · split
      · split <;> rfl
      · split <;> rfl

theorem completionCheck_trace (s : SenderState) : (completionCheck s).trace = s.trace := by
  unfold completionCheck
  split <;> rfl

theorem sentFrames_poll (env : Env) (s : SenderState) (recv : Option datagramS) :
    sentFrames (poll env s recv).trace = sentFrames s.trace := by
  rcases poll_trace_cases env s recv with h | h | ⟨h, _⟩ <;> rw [h]
  · simp [sentFrames_append, sentFrames]
  · simp [sentFrames_append, sentFrames]

theorem iteration_allSent (env : Env) (s : SenderState) (inp : Input) :
    (iteration env s inp).allSent = (fill env s).allSent := by
  unfold iteration
  rw [completionCheck_allSent, timeoutCheck_allSent, poll_allSent]

theorem loopCond_of_allSent (s : SenderState) (h : s.allSent = true) : loopCond s = false := by
  simp [loopCond, h]

/-! ## Scenario B: a file of at most one chunk -/

theorem fill_small_file (env : Env) (file : List Nat) (h0 : 0 < file.length)
    (h1 : file.length ≤ env.MAX_PAYLOAD_LENGTH) :
    fill env (initState env file) = fillBody env (fillBody env (initState env file)) ∧
    ((initState env file).inputFile.take env.MAX_PAYLOAD_LENGTH) = file ∧
    (fillBody env (initState env file)).inputFile = [] ∧
    (fillBody env (initState env file)).nextSeqNum = 2 ∧
    (fillBody env (initState env file)).allSent = false := by
  have htake : (initState env file).inputFile.take env.MAX_PAYLOAD_LENGTH = file :=
    List.take_of_length_le h1
  have hlen : ((initState env file).inputFile.take env.MAX_PAYLOAD_LENGTH).length ≠ 0 := by
    rw [htake]; omega
  have hfile1 : (fillBody env (initState env file)).inputFile = [] := by
    rw [fillBody_inputFile]; exact List.drop_of_length_le h1
  have hnext1 : (fillBody env (initState env file)).nextSeqNum = 2 := by
    rw [fillBody_nextSeqNum_eq, if_neg hlen]; rfl
  have hsent1 : (fillBody env (initState env file)).allSent = false := by
    rw [fillBody_allSent_eq env _ rfl]; simp only [hlen, decide_False]
  have hc0 : fillCond (initState env file) = true := by
    simp [fillCond, initState, WINDOW_SIZE]
  have hc1 : fillCond (fillBody env (initState env file)) = true := by
    rw [fillCond_iff, fillBody_base, hnext1, hsent1]
    simp [initState]
  have hsent2 : (fillBody env (fillBody env (initState env file))).allSent = true := by
    rw [fillBody_allSent_eq env _ hsent1, hfile1]; simp
  have hc2 : fillCond (fillBody env (fillBody env (initState env file))) = false := by
    simp [fillCond, hsent2]
  refine ⟨?_, htake, hfile1, hnext1, hsent1⟩
  have hfuel : ((initState env file).base + WINDOW_SIZE -
      (initState env file).nextSeqNum).toNat = 8 + 1 + 1 := by
    simp [initState, WINDOW_SIZE]
  unfold fill
  rw [hfuel, fillLoop_succ_of_cond env _ _ hc0, fillLoop_succ_of_cond env _ _ hc1,
    fillLoop_of_not_cond env _ _ hc2]

/-- What the code does on a file of at most one chunk, for payload lengths
that fit in 8 bits (`MAX_PAYLOAD_LENGTH ≤ 255`): for every file of `n` bytes
with `0 < n ≤ MAX_PAYLOAD_LENGTH` and every run whose first iteration has no
timer expiry, exactly two frames are passed to `udt_send` in the whole run:
first a data frame with sequence number 1, payload length `n` and the `n`
bytes of the file, then the EOF marker with sequence number 2 and payload
length 0; after the filling phase both are stored in the window array, in
the distinct slots 1 and 2, with `base = 1` and `nextSeqNum = 2`; and
`timer.start` is called exactly once. -/
theorem small_file_first_iteration (env : Env) (file : List Nat) (h0 : 0 < file.length)
    (h1 : file.length ≤ env.MAX_PAYLOAD_LENGTH) (hmax : env.MAX_PAYLOAD_LENGTH ≤ 255)
    (inp : Input) (rest : List Input) (hexp : inp.expired = false) :
    WINDOW_SIZE = 10 ∧
    ∃ d1 d2 : datagramS,
      sentFrames (run env (initState env file) (inp :: rest)).trace = [d1, d2] ∧
      d1.seqNum = 1 ∧ d1.payloadLength = file.length ∧
      d1.data.take d1.payloadLength = file ∧
      d2.seqNum = 2 ∧ d2.payloadLength = 0 ∧
      sentFrames (fill env (initState env file)).trace = [d1, d2] ∧
      (fill env (initState env file)).window (slot 1) = d1 ∧
      (fill env (initState env file)).window (slot 2) = d2 ∧
      slot 1 ≠ slot 2 ∧
      (fill env (initState env file)).base = 1 ∧
      (fill env (initState env file)).nextSeqNum = 2 ∧
      timerStarts (run env (initState env file) (inp :: rest)).trace = 1 := by
  obtain ⟨hfill, htake, hfile1, hnext1, hsent1⟩ := fill_small_file env file h0 h1
  have hlen : ((initState env file).inputFile.take env.MAX_PAYLOAD_LENGTH).length ≠ 0 := by
    rw [htake]; omega
  have htake1 : ((fillBody env (initState env file)).inputFile.take
      env.MAX_PAYLOAD_LENGTH).length = 0 := by
    rw [hfile1]; simp
  have hbase1 : (fillBody env (initState env file)).base = 1 := by
    rw [fillBody_base]; rfl
  have htrace : (fill env (initState env file)).trace =
      [Event.read file.length, Event.udt_send (fillFrame env (initState env file)),
        Event.setDuration TIMEOUT_MS, Event.start, Event.read 0,
        Event.udt_send (fillFrame env (fillBody env (initState env file)))] := by
    rw [hfill, fillBody_trace, fillBody_trace, htake1, htake]
    have hb : (initState env file).base = (initState env file).nextSeqNum := rfl
    have hl : file.length ≠ 0 := by omega
    simp [hl, hb, initState]
  have hsentfill : (fill env (initState env file)).allSent = true := by
    rw [hfill, fillBody_allSent_eq env _ hsent1, htake1]; simp
  have hbasefill : (fill env (initState env file)).base = 1 := by
    rw [hfill, fillBody_base, hbase1]
  have hnextfill : (fill env (initState env file)).nextSeqNum = 2 := by
    rw [hfill, fillBody_nextSeqNum_eq, htake1, hnext1]; simp
  have hrun : run env (initState env file) (inp :: rest) =
      iteration env (initState env file) inp := by
    rw [run_cons_of_loopCond _ _ _ _ (by simp [loopCond, initState])]
    apply run_of_loopCond_false
    apply loopCond_of_allSent
    rw [iteration_allSent, hsentfill]
  have hiter : (iteration env (initState env file) inp).trace =
      (poll env (fill env (initState env file)) inp.recv).trace := by
    unfold iteration
    rw [completionCheck_trace, hexp]
    rfl
  have hs12 : slot 1 ≠ slot 2 := slot_ne 1 2 (by omega) (by omega) (by omega)
  refine ⟨rfl, fillFrame env (initState env file),
    fillFrame env (fillBody env (initState env file)), ?_, ?_, ?_, ?_, ?_, ?_, ?_, ?_, ?_,
    hs12, hbasefill, hnextfill, ?_⟩
  · rw [hrun, hiter, sentFrames_poll, htrace]
    simp [sentFrames]
  · rw [fillFrame_seqNum]; rfl
  · rw [fillFrame_payloadLength, htake]; omega
  · rw [fillFrame_payloadLength, fillFrame_data, htake]
    have : file.length % 256 = file.length := by omega
    rw [this, List.take_left]
  · rw [fillFrame_seqNum, hnext1]
  · rw [fillFrame_payloadLength, htake1]
  · rw [htrace]; simp [sentFrames]
  · rw [hfill, fillBody_window, hnext1, Function.update_noteq hs12, fillBody_window]
    exact Function.update_same _ _ _
  · rw [hfill, fillBody_window, hnext1]
    exact Function.update_same _ _ _
  · rw [hrun, hiter]
    rcases poll_trace_cases env (fill env (initState env file)) inp.recv with h | h | ⟨h, hlt⟩
    · rw [h, htrace]; simp [timerStarts]
    · rw [h, htrace]; simp [timerStarts]
    · rw [hbasefill, hnextfill] at hlt
      omega

/-- C12 (scenario B), where the code departs from it: for a file of three
bytes (one chunk) and a first iteration without timer expiry the run sends
two frames in all, the data frame 1 with the three bytes and the EOF marker
2, and calls `timer.start` once; but after the filling phase
`base = 1` and `nextSeqNum = 2`, so the range `[base, nextSeqNum)` of
outstanding frames holds one sequence number, 1, and not the number 2 of the
EOF marker: a timer expiry in that state resends the data frame only, and a
checksum-valid acknowledgment with `ackNum = 2` leaves `base` at 1. -/
theorem scenario_B_eof_not_outstanding :
    (sentFrames (run sampleEnv (initState sampleEnv [7, 8, 9]) [⟨none, false⟩]).trace).map
      (fun d => (d.seqNum, d.payloadLength, d.data.take d.payloadLength)) =
      [(1, 3, [7, 8, 9]), (2, 0, [])] ∧
    timerStarts (run sampleEnv (initState sampleEnv [7, 8, 9]) [⟨none, false⟩]).trace = 1 ∧
    (sentFrames (fill sampleEnv (initState sampleEnv [7, 8, 9])).trace).map
      (fun d => (d.seqNum, d.payloadLength)) = [(1, 3), (2, 0)] ∧
    (fill sampleEnv (initState sampleEnv [7, 8, 9])).base = 1 ∧
    (fill sampleEnv (initState sampleEnv [7, 8, 9])).nextSeqNum = 2 ∧
    ((fill sampleEnv (initState sampleEnv [7, 8, 9])).nextSeqNum -
      (fill sampleEnv (initState sampleEnv [7, 8, 9])).base).toNat = 1 ∧
    ¬ ((fill sampleEnv (initState sampleEnv [7, 8, 9])).base ≤ 2 ∧
      (2 : Int) < (fill sampleEnv (initState sampleEnv [7, 8, 9])).nextSeqNum) ∧
    (sentFrames (timeoutCheck (fill sampleEnv (initState sampleEnv [7, 8, 9])) true).trace).map
      (fun d => (d.seqNum, d.payloadLength)) = [(1, 3), (2, 0), (1, 3)] ∧
    sampleEnv.validateChecksum ⟨0, 2, 2, 0, []⟩ = true ∧
    (poll sampleEnv (fill sampleEnv (initState sampleEnv [7, 8, 9]))
      (some ⟨0, 2, 2, 0, []⟩)).base = 1 := by
  decide

/-! ## Scenario C: the window limits the first sends -/

theorem readEvents_append (a b : List Event) :
    readEvents (a ++ b) = readEvents a ++ readEvents b := by
  induction a with
  | nil => rfl
  | cons e rest ih =>
    cases e <;> simp [readEvents, ih]

theorem sentFrames_fillBody (env : Env) (s : SenderState) :
    sentFrames (fillBody env s).trace = sentFrames s.trace ++ [fillFrame env s] := by
  rw [fillBody_trace]
  split <;> simp [sentFrames_append, sentFrames]

theorem readEvents_fillBody (env : Env) (s : SenderState) :
    readEvents (fillBody env s).trace =
      readEvents s.trace ++ [(s.inputFile.take env.MAX_PAYLOAD_LENGTH).length] := by
  rw [fillBody_trace]
  split <;> simp [readEvents_append, readEvents]

theorem timeoutCheck_base (s : SenderState) (expired : Bool) :
    (timeoutCheck s expired).base = s.base := by
  cases expired
  · rfl
  · rw [timeoutCheck_true_eq]

theorem completionCheck_base (s : SenderState) : (completionCheck s).base = s.base := by
  unfold completionCheck
  split <;> rfl

theorem poll_base_changes (env : Env) (s : SenderState) (recv : Option datagramS)
    (h : (poll env s recv).base ≠ s.base) :
    ∃ f, recv = some f ∧ env.validateChecksum f = true ∧ s.base ≤ f.ackNum ∧
      f.ackNum < s.nextSeqNum ∧ (poll env s recv).base = f.ackNum + 1 := by
  cases recv with
  | none => exact absurd rfl h
  | some f =>
    by_cases hv : env.validateChecksum f = true
    · by_cases hr : f.ackNum ≥ s.base ∧ f.ackNum < s.nextSeqNum
      · refine ⟨f, rfl, hv, hr.1, hr.2, ?_⟩
        by_cases he : f.ackNum + 1 = s.nextSeqNum <;> simp [poll, hv, hr, he]
      · exfalso
        apply h
        rw [poll_out_of_range env s f hv (by omega)]
    · exfalso
      apply h
      simp [poll, hv]

/-- The filling loop on a file that still holds more than `k` full chunks,
with room for `k` frames in the window: `k` rounds read `k` full chunks and
send `k` frames numbered from `nextSeqNum` on. -/
theorem fillLoop_full_chunks (env : Env) (k : Nat) (s : SenderState)
    (hpos : 0 < env.MAX_PAYLOAD_LENGTH) (hsent : s.allSent = false)
    (hlen : k * env.MAX_PAYLOAD_LENGTH < s.inputFile.length)
    (hroom : s.nextSeqNum + (k : Int) ≤ s.base + WINDOW_SIZE) :
    (fillLoop env k s).base = s.base ∧
    (fillLoop env k s).nextSeqNum = s.nextSeqNum + (k : Int) ∧
    (fillLoop env k s).allSent = false ∧
    (fillLoop env k s).inputFile = s.inputFile.drop (k * env.MAX_PAYLOAD_LENGTH) ∧
    (sentFrames (fillLoop env k s).trace).map (fun d => d.seqNum) =
      (sentFrames s.trace).map (fun d => d.seqNum) ++
        List.map (fun j : Nat => s.nextSeqNum + (j : Int)) (List.range k) ∧
    readEvents (fillLoop env k s).trace =
      readEvents s.trace ++ List.replicate k env.MAX_PAYLOAD_LENGTH := by
  induction k generalizing s with
  | zero => simp [fillLoop, hsent]
  | succ k ih =>
    have hmul : (k + 1) * env.MAX_PAYLOAD_LENGTH =
        env.MAX_PAYLOAD_LENGTH + k * env.MAX_PAYLOAD_LENGTH := by ring
    have hchunk : (s.inputFile.take env.MAX_PAYLOAD_LENGTH).length =
        env.MAX_PAYLOAD_LENGTH := by
      rw [List.length_take]; omega
    have hc : fillCond s = true := by
      rw [fillCond_iff]
      refine ⟨?_, hsent⟩
      simp only [WINDOW_SIZE] at hroom
      push_cast at hroom
      omega
    rw [fillLoop_succ_of_cond env k s hc]
    have hz : env.MAX_PAYLOAD_LENGTH ≠ 0 := by omega
    have hnz : (s.inputFile.take env.MAX_PAYLOAD_LENGTH).length ≠ 0 := by
      rw [hchunk]; exact hz
    have hnext : (fillBody env s).nextSeqNum = s.nextSeqNum + 1 := by
      rw [fillBody_nextSeqNum_eq, if_neg hnz]
    have hsent1 : (fillBody env s).allSent = false := by
      rw [fillBody_allSent_eq env s hsent]; simp only [hnz, decide_False]
    obtain ⟨i1, i2, i3, i4, i5, i6⟩ := ih (fillBody env s) hsent1
      (by rw [fillBody_inputFile, List.length_drop]; omega)
      (by rw [hnext, fillBody_base]; push_cast at hroom; omega)
    refine ⟨?_, ?_, i3, ?_, ?_, ?_⟩
    · rw [i1, fillBody_base]
    · rw [i2, hnext]; push_cast; ring
    · rw [i4, fillBody_inputFile, List.drop_drop, hmul]
    · rw [i5, sentFrames_fillBody, List.range_succ_eq_map]
      simp only [List.map_append, List.map_cons, List.map_nil, List.map_map,
        List.append_assoc, List.singleton_append, fillFrame_seqNum, hnext]
      congr 2
      · simp
      · apply List.map_congr_left
        intro j _
        simp only [Function.comp, Nat.cast_succ]
        ring
    · rw [i6, readEvents_fillBody, hchunk, List.replicate_succ]
      simp

theorem sentBound_of_reachable (env : Env) (file : List Nat) (s : SenderState)
    (h : Reachable env file s) : SentBound s := by
  induction h with
  | init => simp [SentBound, initState, sentFrames]
  | fillBody s _ hc ih =>
    obtain ⟨hc1, -⟩ := (fillCond_iff s).1 hc
    intro d hd
    rw [sentFrames_fillBody, List.mem_append, List.mem_singleton] at hd
    rw [fillBody_base]
    rcases hd with hd | hd
    · exact ih d hd
    · rw [hd, fillFrame_seqNum]
      simp only [WINDOW_SIZE]
      omega
  | poll s recv _ ih =>
    intro d hd
    rw [sentFrames_poll] at hd
    have := ih d hd
    have hm := (poll_mono env s recv).1
    omega
  | timeoutCheck s expired hs ih =>
    cases expired
    · exact ih
    · obtain ⟨_, _, w3, w4⟩ := windowInv_of_reachable env file s hs
      intro d hd
      rw [timeoutCheck_true_eq] at hd ⊢
      simp only [sentFrames_append, List.mem_append] at hd
      rw [sentFrames_map_udt_send (fun k : Nat => s.window (slot (s.base + (k : Int))))] at hd
      rcases hd with (hd | hd) | hd
      · exact ih d hd
      · simp only [List.mem_map, List.mem_range] at hd
        obtain ⟨k, hk, rfl⟩ := hd
        rw [(w4 (s.base + (k : Int)) (by omega) (by omega)).1]
        simp only []
        omega
      · simp [sentFrames] at hd
  | completionCheck s _ ih =>
    intro d hd
    rw [completionCheck_trace] at hd
    rw [completionCheck_base]
    exact ih d hd

/-- C13 (scenario C): for every file of more than `WINDOW_SIZE = 10` full
chunks (of `MAX_PAYLOAD_LENGTH > 0` bytes), the first filling phase makes exactly ten reads, each of a full chunk,
sends exactly the frames with sequence numbers 1 to 10 and stops with
`allSent` false, `nextSeqNum = 11`, its guard false and the rest of the
file unread.  In general a round of the filling loop, the only place where
a frame is sent for the first time, sends the frame numbered `nextSeqNum`
and only runs when `nextSeqNum < base + WINDOW_SIZE`; in every reachable
state every frame sent so far has a sequence number below
`base + WINDOW_SIZE`, so once a frame numbered 11 has been sent `base ≥ 2`;
and `base` only changes in a polling phase that accepts a checksum-valid
acknowledgment with `base ≤ ackNum < nextSeqNum`. -/
theorem scenario_C (env : Env) (file : List Nat) (hpos : 0 < env.MAX_PAYLOAD_LENGTH)
    (hlen : 10 * env.MAX_PAYLOAD_LENGTH < file.length) :
    WINDOW_SIZE = 10 ∧
    ((sentFrames (fill env (initState env file)).trace).map (fun d => d.seqNum) =
        [1, 2, 3, 4, 5, 6, 7, 8, 9, 10] ∧
      readEvents (fill env (initState env file)).trace =
        List.replicate 10 env.MAX_PAYLOAD_LENGTH ∧
      (fill env (initState env file)).inputFile = file.drop (10 * env.MAX_PAYLOAD_LENGTH) ∧
      (fill env (initState env file)).inputFile ≠ [] ∧
      (fill env (initState env file)).allSent = false ∧
      (fill env (initState env file)).base = 1 ∧
      (fill env (initState env file)).nextSeqNum = 11 ∧
      fillCond (fill env (initState env file)) = false) ∧
    (∀ s : SenderState, fillCond s = true →
      sentFrames (fillBody env s).trace = sentFrames s.trace ++ [fillFrame env s] ∧
      (fillFrame env s).seqNum = s.nextSeqNum ∧
      (fillFrame env s).seqNum < s.base + WINDOW_SIZE ∧
      ((fillFrame env s).seqNum = 11 → 2 ≤ s.base)) ∧
    (∀ s, Reachable env file s →
      (∀ d ∈ sentFrames s.trace, d.seqNum < s.base + WINDOW_SIZE) ∧
      ((∃ d ∈ sentFrames s.trace, d.seqNum = 11) → 2 ≤ s.base)) ∧
    (∀ s recv, (poll env s recv).base ≠ s.base →
      ∃ f, recv = some f ∧ env.validateChecksum f = true ∧ s.base ≤ f.ackNum ∧
        f.ackNum < s.nextSeqNum ∧ (poll env s recv).base = f.ackNum + 1) ∧
    (∀ s, (fillBody env s).base = s.base) ∧
    (∀ s expired, (timeoutCheck s expired).base = s.base) ∧
    (∀ s, (completionCheck s).base = s.base) := by
  have hfuel : ((initState env file).base + WINDOW_SIZE -
      (initState env file).nextSeqNum).toNat = 10 := by
    simp [initState, WINDOW_SIZE]
  obtain ⟨f1, f2, f3, f4, f5, f6⟩ :=
    fillLoop_full_chunks env 10 (initState env file) hpos rfl hlen
    (by simp [initState, WINDOW_SIZE])
  have hfill : fill env (initState env file) = fillLoop env 10 (initState env file) := by
    unfold fill; rw [hfuel]
  refine ⟨rfl, ⟨?_, ?_, ?_, ?_, ?_, ?_, ?_, fillCond_fill env _⟩, ?_, ?_,
    poll_base_changes env, fillBody_base env, timeoutCheck_base, completionCheck_base⟩
  · rw [hfill, f5]
    simp [initState, sentFrames, List.range_succ]
  · rw [hfill, f6]
    simp [initState, readEvents]
  · rw [hfill, f4]; rfl
  · rw [hfill, f4]
    intro hnil
    have := congrArg List.length hnil
    rw [List.length_drop] at this
    simp only [initState, List.length_nil] at this
    omega
  · rw [hfill, f3]
  · rw [hfill, f1]; rfl
  · rw [hfill, f2]; rfl
  · intro s hc
    obtain ⟨hc1, -⟩ := (fillCond_iff s).1 hc
    refine ⟨sentFrames_fillBody env s, fillFrame_seqNum env s, ?_, ?_⟩
    · rw [fillFrame_seqNum]; simp only [WINDOW_SIZE]; omega
    · rw [fillFrame_seqNum]; intro h11; omega
  · intro s hs
    have hb := sentBound_of_reachable env file s hs
    refine ⟨hb, ?_⟩
    rintro ⟨d, hd, h11⟩
    have := hb d hd
    simp only [WINDOW_SIZE] at this
    omega

theorem scenario_C_witness :
    0 < sampleEnv.MAX_PAYLOAD_LENGTH ∧
    10 * sampleEnv.MAX_PAYLOAD_LENGTH < (List.replicate 2551 7).length ∧
    (sentFrames (fill sampleEnv (initState sampleEnv (List.replicate 2551 7))).trace).map
      (fun d => d.seqNum) = [1, 2, 3, 4, 5, 6, 7, 8, 9, 10] ∧
    (fill sampleEnv (initState sampleEnv (List.replicate 2551 7))).nextSeqNum = 11 :=
  ⟨by decide, by simp only [List.length_replicate]; decide,
   (scenario_C sampleEnv (List.replicate 2551 7) (by decide) (by simp only [List.length_replicate]; decide)).2.1.1,
   (scenario_C sampleEnv (List.replicate 2551 7) (by decide)
      (by simp only [List.length_replicate]; decide)).2.1.2.2.2.2.2.2.1⟩

/-! ## The frames sent for the first time -/

theorem noPendingRead_tail (e : Event) (rest : List Event)
    (h : NoPendingRead (e :: rest)) : NoPendingRead rest := by
  cases rest with
  | nil => intro n; simp
  | cons e2 rest2 =>
    intro n
    have := h n
    rwa [List.getLast?_cons_cons] at this

theorem noPendingRead_append (a b : List Event) (hb : b ≠ []) (h : NoPendingRead b) :
    NoPendingRead (a ++ b) := by
  intro n
  rw [List.getLast?_append]
  cases hq : b.getLast? with
  | none => exact absurd (List.getLast?_eq_none_iff.1 hq) hb
  | some e =>
    simp only [Option.or_some]
    rw [← hq]
    exact h n

theorem firstSends_append (a b : List Event) (ha : NoPendingRead a) :
    firstSends (a ++ b) = firstSends a ++ firstSends b := by
  induction a with
  | nil => rfl
  | cons e rest ih =>
    have ih2 := ih (noPendingRead_tail e rest ha)
    cases e with
    | read n =>
      cases rest with
      | nil => exact absurd rfl (ha n)
      | cons e2 rest2 =>
        cases e2 with
        | udt_send d =>
          simp only [List.cons_append, firstSends] at ih2 ⊢
          rw [ih2]
        | read m => simpa only [List.cons_append, firstSends] using ih2
        | setDuration m => simpa only [List.cons_append, firstSends] using ih2
        | start => simpa only [List.cons_append, firstSends] using ih2
        | stop => simpa only [List.cons_append, firstSends] using ih2
    | udt_send d => simpa only [List.cons_append, firstSends] using ih2
    | setDuration m => simpa only [List.cons_append, firstSends] using ih2
    | start => simpa only [List.cons_append, firstSends] using ih2
    | stop => simpa only [List.cons_append, firstSends] using ih2

theorem firstSends_of_no_read (tr : List Event) (h : ∀ n, Event.read n ∉ tr) :
    firstSends tr = [] := by
  induction tr with
  | nil => rfl
  | cons e rest ih =>
    have hr : ∀ n, Event.read n ∉ rest := fun n hn => h n (List.mem_cons_of_mem _ hn)
    cases e with
    | read n => exact absurd (List.mem_cons_self _ _) (h n)
    | udt_send d => simpa only [firstSends] using ih hr
    | setDuration m => simpa only [firstSends] using ih hr
    | start => simpa only [firstSends] using ih hr
    | stop => simpa only [firstSends] using ih hr

theorem firstSends_append_no_read (a tr : List Event) (ha : NoPendingRead a)
    (h : ∀ n, Event.read n ∉ tr) : firstSends (a ++ tr) = firstSends a := by
  rw [firstSends_append a tr ha, firstSends_of_no_read tr h, List.append_nil]

theorem firstSends_fillBody (env : Env) (s : SenderState) (h : NoPendingRead s.trace) :
    firstSends (fillBody env s).trace = firstSends s.trace ++ [fillFrame env s] := by
  rw [fillBody_trace, List.append_assoc, firstSends_append _ _ h]
  split <;> simp [firstSends]

theorem noPendingRead_fillBody (env : Env) (s : SenderState) :
    NoPendingRead (fillBody env s).trace := by
  rw [fillBody_trace, List.append_assoc]
  apply noPendingRead_append
  · simp
  · intro n
    split <;> simp

theorem firstSends_poll (env : Env) (s : SenderState) (recv : Option datagramS)
    (h : NoPendingRead s.trace) : firstSends (poll env s recv).trace = firstSends s.trace := by
  rcases poll_trace_cases env s recv with hp | hp | ⟨hp, _⟩ <;> rw [hp]
  · exact firstSends_append_no_read _ _ h (by simp)
  · exact firstSends_append_no_read _ _ h (by simp)

theorem noPendingRead_poll (env : Env) (s : SenderState) (recv : Option datagramS)
    (h : NoPendingRead s.trace) : NoPendingRead (poll env s recv).trace := by
  rcases poll_trace_cases env s recv with hp | hp | ⟨hp, _⟩ <;> rw [hp]
  · exact h
  · exact noPendingRead_append _ _ (by simp) (by intro n; simp)
  · exact noPendingRead_append _ _ (by simp) (by intro n; simp)

theorem poll_inputFile (env : Env) (s : SenderState) (recv : Option datagramS) :
    (poll env s recv).inputFile = s.inputFile := by
  unfold poll
  split
  · rfl
  · split
    · rfl
    · split
      · split <;> rfl
      · split <;> rfl

theorem poll_window (env : Env) (s : SenderState) (recv : Option datagramS) :
    (poll env s recv).window = s.window := by
  unfold poll
  split
  · rfl
  · split
    · rfl
    · split
      · split <;> rfl
      · split <;> rfl

theorem timeoutCheck_trace_true (s : SenderState) :
    (timeoutCheck s true).trace =
      s.trace ++
        (List.map (fun k : Nat => Event.udt_send (s.window (slot (s.base + (k : Int)))))
          (List.range (s.nextSeqNum - s.base).toNat) ++ [Event.start]) := by
  rw [timeoutCheck_true_eq, List.append_assoc]

theorem firstSends_timeoutCheck (s : SenderState) (expired : Bool)
    (h : NoPendingRead s.trace) :
    firstSends (timeoutCheck s expired).trace = firstSends s.trace := by
  cases expired
  · rfl
  · rw [timeoutCheck_trace_true]
    apply firstSends_append_no_read _ _ h
    intro n hn
    simp at hn

theorem noPendingRead_timeoutCheck (s : SenderState) (expired : Bool)
    (h : NoPendingRead s.trace) : NoPendingRead (timeoutCheck s expired).trace := by
  cases expired
  · exact h
  · rw [timeoutCheck_true_eq]
    exact noPendingRead_append _ _ (by simp) (by intro n; simp)

theorem timeoutCheck_nextSeqNum (s : SenderState) (expired : Bool) :
    (timeoutCheck s expired).nextSeqNum = s.nextSeqNum := by
  cases expired
  · rfl
  · rw [timeoutCheck_true_eq]

theorem timeoutCheck_inputFile (s : SenderState) (expired : Bool) :
    (timeoutCheck s expired).inputFile = s.inputFile := by
  cases expired
  · rfl
  · rw [timeoutCheck_true_eq]

theorem timeoutCheck_window (s : SenderState) (expired : Bool) :
    (timeoutCheck s expired).window = s.window := by
  cases expired
  · rfl
  · rw [timeoutCheck_true_eq]

theorem completionCheck_nextSeqNum (s : SenderState) :
    (completionCheck s).nextSeqNum = s.nextSeqNum := by
  unfold completionCheck
  split <;> rfl

theorem completionCheck_inputFile (s : SenderState) :
    (completionCheck s).inputFile = s.inputFile := by
  unfold completionCheck
  split <;> rfl

theorem completionCheck_window (s : SenderState) :
    (completionCheck s).window = s.window := by
  unfold completionCheck
  split <;> rfl

theorem chunkInv_init (env : Env) (file : List Nat) : ChunkInv env file (initState env file) := by
  refine ⟨by intro n; simp [initState], [], [], ?_, ?_, ?_, ?_, ?_, ?_⟩
  · simp [initState, firstSends]
  · simp [initState]
  · simp
  · intro _; rfl
  · intro h; simp [initState] at h
  · intro _ _
    refine ⟨by simp, by simp [initState], ?_⟩
    intro h; simp [initState] at h

theorem chunkInv_of_same (env : Env) (file : List Nat) (s t : SenderState)
    (hfs : firstSends t.trace = firstSends s.trace) (hnp : NoPendingRead t.trace)
    (hn : t.nextSeqNum = s.nextSeqNum) (hs : t.allSent = s.allSent)
    (hf : t.inputFile = s.inputFile) (h : ChunkInv env file s) : ChunkInv env file t := by
  obtain ⟨_, frames, eofs, c1, c2, c3, c4, c5, c6⟩ := h
  refine ⟨hnp, frames, eofs, ?_, ?_, c3, ?_, ?_, ?_⟩
  · rw [hfs]; exact c1
  · rw [hn]; exact c2
  · rw [hs]; exact c4
  · rw [hs, hn]; exact c5
  · rw [hs, hf]; exact c6

theorem chunkInv_fillBody (env : Env) (file : List Nat) (s : SenderState)
    (h : ChunkInv env file s) (hc : fillCond s = true) :
    ChunkInv env file (fillBody env s) := by
  obtain ⟨hnp, frames, eofs, c1, c2, c3, c4, -, c6⟩ := h
  obtain ⟨-, hsent⟩ := (fillCond_iff s).1 hc
  have heofs := c4 hsent
  subst heofs
  rw [List.append_nil] at c1
  have hlen := chunk_length_le env s.inputFile
  have hfs := firstSends_fillBody env s hnp
  by_cases hz : (s.inputFile.take env.MAX_PAYLOAD_LENGTH).length = 0
  · have hnext : (fillBody env s).nextSeqNum = s.nextSeqNum := by
      rw [fillBody_nextSeqNum_eq, if_pos hz]
    have hall : (fillBody env s).allSent = true := by
      rw [fillBody_allSent_eq env s hsent]; simp only [hz, decide_True]
    refine ⟨noPendingRead_fillBody env s, frames, [fillFrame env s], ?_, ?_, c3, ?_, ?_, ?_⟩
    · rw [hfs, c1]
    · rw [hnext]; exact c2
    · rw [hall]; intro hq; cases hq
    · intro _
      refine ⟨_, rfl, ?_, ?_⟩
      · rw [fillFrame_payloadLength, hz]
      · rw [fillFrame_seqNum, hnext]
    · intro hpos hmax
      obtain ⟨d1, d2, -⟩ := c6 hpos hmax
      have hnil : s.inputFile = [] := by
        rw [List.length_take] at hz
        have : s.inputFile.length = 0 := by omega
        exact List.length_eq_zero.1 this
      refine ⟨d1, ?_, ?_⟩
      · rw [fillBody_inputFile, hnil, List.drop_nil]
        rw [hnil] at d2
        exact d2
      · intro _
        rw [fillBody_inputFile, hnil, List.drop_nil]
  · have hnext : (fillBody env s).nextSeqNum = s.nextSeqNum + 1 := by
      rw [fillBody_nextSeqNum_eq, if_neg hz]
    have hall : (fillBody env s).allSent = false := by
      rw [fillBody_allSent_eq env s hsent]; simp only [hz, decide_False]
    refine ⟨noPendingRead_fillBody env s, frames ++ [fillFrame env s], [], ?_, ?_, ?_, ?_, ?_,
      ?_⟩
    · rw [hfs, c1, List.append_nil]
    · rw [hnext, List.length_append, List.length_singleton]
      push_cast
      omega
    · rw [List.map_append, c3, List.length_append, List.length_singleton, List.range_succ,
        List.map_append]
      simp only [List.map_cons, List.map_nil, fillFrame_seqNum]
      rw [← c2]
    · intro _; rfl
    · rw [hall]; intro hq; cases hq
    · intro hpos hmax
      obtain ⟨d1, d2, -⟩ := c6 hpos hmax
      have hpl : (fillFrame env s).payloadLength =
          (s.inputFile.take env.MAX_PAYLOAD_LENGTH).length := by
        rw [fillFrame_payloadLength]; omega
      refine ⟨?_, ?_, ?_⟩
      · intro d hd
        rw [List.mem_append, List.mem_singleton] at hd
        rcases hd with hd | hd
        · exact d1 d hd
        · rw [hd, hpl]; omega
      · rw [List.map_append, List.flatten_append, fillBody_inputFile]
        simp only [List.map_cons, List.map_nil, List.flatten_cons, List.flatten_nil,
          List.append_nil]
        rw [hpl, fillFrame_data, List.take_left, List.append_assoc, List.take_append_drop]
        exact d2
      · rw [hall]; intro hq; cases hq

theorem chunkInv_of_reachable (env : Env) (file : List Nat) (s : SenderState)
    (h : Reachable env file s) : ChunkInv env file s := by
  induction h with
  | init => exact chunkInv_init env file
  | fillBody s _ hc ih => exact chunkInv_fillBody env file s ih hc
  | poll s recv _ ih =>
    exact chunkInv_of_same env file s _ (firstSends_poll env s recv ih.1)
      (noPendingRead_poll env s recv ih.1) (poll_nextSeqNum env s recv)
      (poll_allSent env s recv) (poll_inputFile env s recv) ih
  | timeoutCheck s expired _ ih =>
    exact chunkInv_of_same env file s _ (firstSends_timeoutCheck s expired ih.1)
      (noPendingRead_timeoutCheck s expired ih.1) (timeoutCheck_nextSeqNum s expired)
      (timeoutCheck_allSent s expired) (timeoutCheck_inputFile s expired) ih
  | completionCheck s _ ih =>
    exact chunkInv_of_same env file s _ (by rw [completionCheck_trace])
      (by rw [completionCheck_trace]; exact ih.1) (completionCheck_nextSeqNum s)
      (completionCheck_allSent s) (completionCheck_inputFile s) ih

/-- C14 (chunking and numbering): in every reachable state the `k`-th frame
sent for the first time has sequence number `k` (`k = 1, 2, ...`).  When
chunks are not empty and payload lengths fit in 8 bits
(`0 < MAX_PAYLOAD_LENGTH ≤ 255`), the frames sent for the first time are data
frames, each carrying between 1 and `MAX_PAYLOAD_LENGTH` bytes, followed by
the EOF marker once `allSent` is true; the first `payloadLength` payload
bytes of the data frames, concatenated in this order and followed by the
unread part of the file, are the file, and once `allSent` is true (as in
every state in which the loop has stopped) nothing is unread and the
concatenation is the whole file. -/
theorem chunking_and_numbering (env : Env) (file : List Nat) (s : SenderState)
    (h : Reachable env file s) :
    (firstSends s.trace).map (fun d => d.seqNum) =
      List.map (fun k : Nat => (k : Int) + 1) (List.range (firstSends s.trace).length) ∧
    (0 < env.MAX_PAYLOAD_LENGTH → env.MAX_PAYLOAD_LENGTH ≤ 255 →
      ∃ frames eofs : List datagramS,
        firstSends s.trace = frames ++ eofs ∧
        (∀ d ∈ frames, 1 ≤ d.payloadLength ∧ d.payloadLength ≤ env.MAX_PAYLOAD_LENGTH) ∧
        (frames.map (fun d => d.data.take d.payloadLength)).flatten ++ s.inputFile = file ∧
        (s.allSent = false → eofs = []) ∧
        (s.allSent = true →
          s.inputFile = [] ∧
          (frames.map (fun d => d.data.take d.payloadLength)).flatten = file ∧
          ∃ e, eofs = [e] ∧ e.payloadLength = 0) ∧
        (loopCond s = false → s.allSent = true)) := by
  obtain ⟨_, frames, eofs, c1, c2, c3, c4, c5, c6⟩ := chunkInv_of_reachable env file s h
  refine ⟨?_, ?_⟩
  · rw [c1]
    cases hs : s.allSent
    · rw [c4 hs, List.append_nil]; exact c3
    · obtain ⟨e, he, -, hseq⟩ := c5 hs
      rw [he, List.map_append, c3, List.length_append, List.length_singleton, List.range_succ,
        List.map_append]
      simp only [List.map_cons, List.map_nil, hseq]
      rw [← c2]
  · intro hpos hmax
    obtain ⟨d1, d2, d3⟩ := c6 hpos hmax
    refine ⟨frames, eofs, c1, d1, d2, c4, ?_, ?_⟩
    · intro hs
      obtain ⟨e, he, hpl, -⟩ := c5 hs
      refine ⟨d3 hs, ?_, e, he, hpl⟩
      have := d2
      rw [d3 hs, List.append_nil] at this
      exact this
    · intro hstop
      have hinv := eofInv_of_reachable env file s hmax h
      cases hq : s.allSent
      · cases ha : s.allAcked
        · simp [loopCond, hq, ha] at hstop
        · rw [hinv.1 ha] at hq; cases hq
      · rfl

theorem chunking_and_numbering_witness :
    Reachable sampleEnv [7, 8, 9]
      (run sampleEnv (initState sampleEnv [7, 8, 9]) [⟨none, true⟩]) ∧
    (firstSends (run sampleEnv (initState sampleEnv [7, 8, 9]) [⟨none, true⟩]).trace).map
        (fun d => d.seqNum) =
      List.map (fun k : Nat => (k : Int) + 1) (List.range
        (firstSends (run sampleEnv (initState sampleEnv [7, 8, 9])
          [⟨none, true⟩]).trace).length) ∧
    (firstSends (run sampleEnv (initState sampleEnv [7, 8, 9]) [⟨none, true⟩]).trace).map
        (fun d => (d.seqNum, d.data.take d.payloadLength)) = [(1, [7, 8, 9]), (2, [])] :=
  ⟨reachable_run sampleEnv [7, 8, 9] [⟨none, true⟩],
   (chunking_and_numbering sampleEnv [7, 8, 9] _
      (reachable_run sampleEnv [7, 8, 9] [⟨none, true⟩])).1,
   by decide⟩

/-! ## The slots of the outstanding frames -/

theorem slotInv_of_same (s t : SenderState)
    (hfs : firstSends t.trace = firstSends s.trace) (hw : t.window = s.window)
    (hb : s.base ≤ t.base) (hn : t.nextSeqNum = s.nextSeqNum) (h : SlotInv s) :
    SlotInv t := by
  intro i hi1 hi2
  rw [hfs, hw]
  exact h i (by omega) (by omega)

theorem slotInv_fillBody (env : Env) (file : List Nat) (s : SenderState)
    (hw : WindowInv env s) (hch : ChunkInv env file s) (h : SlotInv s)
    (hc : fillCond s = true) : SlotInv (fillBody env s) := by
  obtain ⟨w1, w2, w3, _⟩ := hw
  obtain ⟨hnp, frames, eofs, c1, c2, _, c4, _, _⟩ := hch
  obtain ⟨hc1, hsent⟩ := (fillCond_iff s).1 hc
  have heofs := c4 hsent
  subst heofs
  rw [List.append_nil] at c1
  intro i hi1 hi2
  rw [fillBody_base] at hi1
  rw [firstSends_fillBody env s hnp, fillBody_window]
  by_cases hi : i = s.nextSeqNum
  · subst hi
    rw [Function.update_same, c1]
    have hidx : (s.nextSeqNum - 1).toNat = frames.length := by omega
    rw [hidx, List.getElem?_append_right (le_refl _)]
    simp
  · have hlt : i < s.nextSeqNum := by
      rcases fillBody_nextSeqNum env s with hn | hn <;> rw [hn] at hi2 <;> omega
    have hne : slot i ≠ slot s.nextSeqNum :=
      slot_ne i s.nextSeqNum (by omega) hlt (by omega)
    rw [Function.update_noteq hne]
    have hidx : (i - 1).toNat < (firstSends s.trace).length := by
      rw [c1]; omega
    rw [List.getElem?_append_left hidx]
    exact h i hi1 hlt

theorem slotInv_of_reachable (env : Env) (file : List Nat) (s : SenderState)
    (h : Reachable env file s) : SlotInv s := by
  induction h with
  | init =>
    intro i h1 h2
    simp [initState] at h1 h2
    omega
  | fillBody s hs hc ih =>
    exact slotInv_fillBody env file s (windowInv_of_reachable env file s hs)
      (chunkInv_of_reachable env file s hs) ih hc
  | poll s recv hs ih =>
    exact slotInv_of_same s _
      (firstSends_poll env s recv (chunkInv_of_reachable env file s hs).1)
      (poll_window env s recv) (poll_mono env s recv).1 (poll_nextSeqNum env s recv) ih
  | timeoutCheck s expired hs ih =>
    exact slotInv_of_same s _
      (firstSends_timeoutCheck s expired (chunkInv_of_reachable env file s hs).1)
      (timeoutCheck_window s expired) (timeoutCheck_mono s expired).1
      (timeoutCheck_nextSeqNum s expired) ih
  | completionCheck s hs ih =>
    exact slotInv_of_same s _ (by rw [completionCheck_trace]) (completionCheck_window s)
      (completionCheck_mono s).1 (completionCheck_nextSeqNum s) ih

theorem firstSends_numbered (env : Env) (file : List Nat) (s : SenderState)
    (h : Reachable env file s) (j : Nat) (d : datagramS)
    (hj : (firstSends s.trace)[j]? = some d) : d.seqNum = (j : Int) + 1 := by
  obtain ⟨_, frames, eofs, c1, c2, c3, c4, c5, _⟩ := chunkInv_of_reachable env file s h
  have hnum : (firstSends s.trace).map (fun d => d.seqNum) =
      List.map (fun k : Nat => (k : Int) + 1) (List.range (firstSends s.trace).length) := by
    rw [c1]
    cases hs : s.allSent
    · rw [c4 hs, List.append_nil]; exact c3
    · obtain ⟨e, he, -, hseq⟩ := c5 hs
      rw [he, List.map_append, c3, List.length_append, List.length_singleton, List.range_succ,
        List.map_append]
      simp only [List.map_cons, List.map_nil, hseq]
      rw [← c2]
  have hlt : j < (firstSends s.trace).length := (List.getElem?_eq_some.1 hj).1
  have h1 : ((firstSends s.trace).map (fun d => d.seqNum))[j]? = some d.seqNum := by
    rw [List.getElem?_map, hj]; rfl
  rw [hnum, List.getElem?_map, List.getElem?_range hlt] at h1
  simp only [Option.map_some', Option.some.injEq] at h1
  exact h1.symm

/-- C15 (window slots): in every reachable state, for every sequence number
`i` with `base ≤ i < nextSeqNum`, the slot `i % WINDOW_SIZE` holds the `i`-th
frame sent for the first time, whose sequence number is `i`, and it is equal
(in all fields: sequence number, payload length, payload and checksum) to
every frame that was sent for the first time with sequence number `i`; a
round of the filling loop, which writes into the slot of `nextSeqNum`, leaves
the slots of `[base, nextSeqNum)` as they were; and the frames that a
timeout phase resends are, in order, the frames first sent with the numbers
`base`, ..., `nextSeqNum - 1`. -/
theorem window_slot_invariant (env : Env) (file : List Nat) (s : SenderState)
    (h : Reachable env file s) :
    (∀ i : Int, s.base ≤ i → i < s.nextSeqNum →
      (firstSends s.trace)[(i - 1).toNat]? = some (s.window (slot i)) ∧
      (s.window (slot i)).seqNum = i ∧
      ∀ d ∈ firstSends s.trace, d.seqNum = i → d = s.window (slot i)) ∧
    (fillCond s = true → ∀ i : Int, s.base ≤ i → i < s.nextSeqNum →
      (fillBody env s).window (slot i) = s.window (slot i)) ∧
    (∃ frames : List datagramS,
      (timeoutCheck s true).trace = s.trace ++ frames.map Event.udt_send ++ [Event.start] ∧
      frames.length = (s.nextSeqNum - s.base).toNat ∧
      ∀ k : Nat, k < (s.nextSeqNum - s.base).toNat →
        frames[k]? = (firstSends s.trace)[(s.base - 1).toNat + k]? ∧
        frames[k]? = some (s.window (slot (s.base + (k : Int))))) := by
  obtain ⟨w1, w2, w3, w4⟩ := windowInv_of_reachable env file s h
  have hslot := slotInv_of_reachable env file s h
  refine ⟨?_, ?_, ?_⟩
  · intro i hi1 hi2
    refine ⟨hslot i hi1 hi2, (w4 i hi1 hi2).1, ?_⟩
    intro d hd hseq
    obtain ⟨j, hj⟩ := List.getElem?_of_mem hd
    have hnum := firstSends_numbered env file s h j d hj
    have hidx : (i - 1).toNat = j := by omega
    have := hslot i hi1 hi2
    rw [hidx, hj] at this
    exact Option.some.inj this
  · intro hc i hi1 hi2
    obtain ⟨hc1, -⟩ := (fillCond_iff s).1 hc
    rw [fillBody_window]
    exact Function.update_noteq (slot_ne i s.nextSeqNum (by omega) hi2 (by omega)) _ _
  · refine ⟨List.map (fun k : Nat => s.window (slot (s.base + (k : Int))))
      (List.range (s.nextSeqNum - s.base).toNat), ?_, by simp, ?_⟩
    · rw [timeoutCheck_true_eq]
      simp only [List.map_map]
      rfl
    · intro k hk
      have hk2 : (List.map (fun k : Nat => s.window (slot (s.base + (k : Int))))
          (List.range (s.nextSeqNum - s.base).toNat))[k]? =
          some (s.window (slot (s.base + (k : Int)))) := by
        rw [List.getElem?_map, List.getElem?_range hk]; rfl
      refine ⟨?_, hk2⟩
      rw [hk2]
      have hidx : (s.base - 1).toNat + k = (s.base + (k : Int) - 1).toNat := by omega
      rw [hidx]
      exact (hslot (s.base + (k : Int)) (by omega) (by omega)).symm

theorem window_slot_invariant_witness :
    Reachable sampleEnv [7, 8, 9] (fill sampleEnv (initState sampleEnv [7, 8, 9])) ∧
    (fill sampleEnv (initState sampleEnv [7, 8, 9])).base ≤ 1 ∧
    (1 : Int) < (fill sampleEnv (initState sampleEnv [7, 8, 9])).nextSeqNum ∧
    (firstSends (fill sampleEnv (initState sampleEnv [7, 8, 9])).trace)[((1 : Int) - 1).toNat]? =
      some ((fill sampleEnv (initState sampleEnv [7, 8, 9])).window (slot 1)) :=
  ⟨reachable_fill _ _ _ Reachable.init, by decide, by decide,
   ((window_slot_invariant sampleEnv [7, 8, 9] _
      (reachable_fill _ _ _ Reachable.init)).1 1 (by decide) (by decide)).1⟩

end RftClient
